import Mathlib

/-!
Verification development for the stakekit/api-recipes repository.

The repository is a set of interactive CLI recipes that drive a remote
staking / perps HTTP API: each recipe fetches server-declared actions made of
transaction steps and runs a transaction execution pipeline
(prepare -> sign -> submit -> poll for confirmation) over them.

This file gives a shallow embedding of the pipeline loops and helper
functions of the repository and proves properties about them.  External
effects (HTTP responses, wallet signatures, prompt answers, JSON parsing of
opaque payloads) are modelled as explicit environment parameters; console
output and the calls performed are modelled as an event trace.  Timing
(setTimeout delays) is modelled by recording the delay constants in the
relevant definitions or events, not by real time.
-/

/-- Events recorded by the embedded pipelines: one constructor per
observable call or console line that the properties below talk about. -/
inductive Ev where
  | alreadySettled (id status : String)
  | showHash (h : String)
  | showLink (u : String)
  | stepLog (id : String)
  | noPayload (id : String)
  | useNonce (n : Int)
  | sign (id : String)
  | submit (id : String)
  | poll (id : String) (k : Nat)
  | confirmedLog (id : String)
  | failedLog (id : String)
  | timeoutWarn (id : String)
  | skipStep (id : String)
  | waitCrossChain (ms : Nat)
  | balancePoll (amt : Int)
  | lockedAvailable
  | gasFetch (network : String)
  | gasCustom (id : String)
  | prepareAttempt (id : String) (k : Nat)
  | retryDelay (ms : Nat)
  | prepared (id : String)
  | statusLine (id status : String)
  deriving DecidableEq, Repr

/-- Control flow after a step or a run: `next` continues (run completed),
`halt` models a propagated exception aborting the run, `spin` models an
unbounded polling loop whose environment never resolves it. -/
inductive Ctl where
  | next
  | halt
  | spin
  deriving DecidableEq, Repr

/-- Console display of a transaction hash and explorer link when present,
as done by `displayTransactionInfo` in src/recipes/yields.ts. -/
def displayInfo (hash explorerUrl : Option String) : List Ev :=
  (match hash with
   | some h => [Ev.showHash h]
   | none => []) ++
  (match explorerUrl with
   | some u => [Ev.showLink u]
   | none => [])

namespace Yields

/-- Parsed content of a step's `unsignedTransaction` JSON string.  The code
reads only the `nonce` field of the parsed object; the rest of the payload is
opaque to the pipeline and is not modelled. -/
structure Payload where
  nonce : Option Int
  deriving DecidableEq, Repr

/-- One transaction step of an action, from the `Transaction` interface of
src/recipes/yields.ts: id, network, status string, type label, optional
payload and optional previously recorded hash / explorer link. -/
structure Tx where
  id : String
  network : String
  status : String
  ty : String
  unsignedTransaction : Option Payload
  hash : Option String
  explorerUrl : Option String
  deriving DecidableEq, Repr

/-- Response body of `submitTransaction` / `getTransaction` as the pipeline
reads it: a status string plus optional hash and explorer link. -/
structure TxInfo where
  status : String
  hash : Option String
  explorerUrl : Option String
  deriving DecidableEq, Repr

/-- Environment of one step of `signAndSubmitTransactions`: whether the
wallet signature call succeeds, the submit response (`none` models a thrown
request error) and the poll responses by attempt number (`none` models a
thrown `getTransaction`, which the code catches and retries). -/
structure StepEnv where
  signOk : Bool
  submit : Option TxInfo
  polls : Nat → Option TxInfo

/-- Bound on confirmation polling attempts (`maxAttempts` in the code);
each attempt is preceded by a fixed 2000 ms delay. -/
def maxAttempts : Nat := 60

/-- Confirmation polling loop of `signAndSubmitTransactions`
(src/recipes/yields.ts; both copies of the recipe in the file contain this
loop verbatim).  It runs while not confirmed and attempts remain.  A
`CONFIRMED` poll sets the flag and displays the info.  A `FAILED` poll logs
and throws, but the throw happens inside the same `try` block whose `catch`
only prints a dot, so the error is swallowed and the loop continues.  Any
other result (or a thrown poll request) prints a dot.  Returns the confirmed
flag and the trace. -/
def confirmLoop (polls : Nat → Option TxInfo) (id : String) (attempt : Nat) :
    Nat → Bool × List Ev
  | 0 => (false, [])
  | fuel + 1 =>
    match polls attempt with
    | some info =>
      if info.status = "CONFIRMED" then
        (true, Ev.poll id attempt :: Ev.confirmedLog id ::
          displayInfo info.hash info.explorerUrl)
      else if info.status = "FAILED" then
        let r := confirmLoop polls id (attempt + 1) fuel
        (r.1, Ev.poll id attempt :: Ev.failedLog id :: r.2)
      else
        let r := confirmLoop polls id (attempt + 1) fuel
        (r.1, Ev.poll id attempt :: r.2)
    | none =>
      let r := confirmLoop polls id (attempt + 1) fuel
      (r.1, Ev.poll id attempt :: r.2)

/-- Settled-status test of the pipeline: the first branch of the loop body
skips steps whose status is `CONFIRMED` or `BROADCASTED`. -/
def settled (status : String) : Prop :=
  status = "CONFIRMED" ∨ status = "BROADCASTED"

instance (status : String) : Decidable (settled status) := by
  unfold settled; infer_instance

/-- One iteration of the `signAndSubmitTransactions` loop of
src/recipes/yields.ts (the copy with local nonce handling).  Given the step
environment, the current local nonce offset and the step, it returns the new
offset, the step trace and the control flow.  Structure of the source:
settled steps are skipped with their stored info displayed; steps without an
unsigned payload are skipped; otherwise the payload nonce (when present) is
bumped by the offset and logged, the offset is incremented, the transaction
is signed, submitted (result info displayed) and the confirmation loop runs,
with a timeout warning when it ends unconfirmed.  A signing or submission
error is rethrown by the catch block, aborting the run.  The `Ev.sign` and
`Ev.submit` events record the call being issued: a call that throws still
appears in the trace, immediately followed by the abort. -/
def processStep (env : StepEnv) (nonceOffset : Nat) (tx : Tx) :
    Nat × List Ev × Ctl :=
  if settled tx.status then
    (nonceOffset,
     Ev.alreadySettled tx.id tx.status :: displayInfo tx.hash tx.explorerUrl,
     Ctl.next)
  else
    match tx.unsignedTransaction with
    | none => (nonceOffset, [Ev.stepLog tx.id, Ev.noPayload tx.id], Ctl.next)
    | some payload =>
      let nonceEvs : List Ev :=
        match payload.nonce with
        | some b => [Ev.useNonce (b + (nonceOffset : Int))]
        | none => []
      if env.signOk = false then
        (nonceOffset + 1, Ev.stepLog tx.id :: nonceEvs ++ [Ev.sign tx.id],
         Ctl.halt)
      else
        match env.submit with
        | none =>
          (nonceOffset + 1,
           Ev.stepLog tx.id :: nonceEvs ++ [Ev.sign tx.id, Ev.submit tx.id],
           Ctl.halt)
        | some res =>
          let cl := confirmLoop env.polls tx.id 0 maxAttempts
          let tailEvs := if cl.1 then cl.2 else cl.2 ++ [Ev.timeoutWarn tx.id]
          (nonceOffset + 1,
           Ev.stepLog tx.id :: nonceEvs ++ [Ev.sign tx.id, Ev.submit tx.id] ++
             displayInfo res.hash res.explorerUrl ++ tailEvs,
           Ctl.next)

/-- Whole-list loop of `signAndSubmitTransactions`: steps are processed in
order, threading the nonce offset; an aborting step stops the run. -/
def run (env : Nat → StepEnv) : Nat → Nat → List Tx → List Ev × Ctl
  | _, _, [] => ([], Ctl.next)
  | i, off, tx :: rest =>
    let s := processStep (env i) off tx
    match s.2.2 with
    | Ctl.next =>
      let r := run env (i + 1) s.1 rest
      (s.2.1 ++ r.1, r.2)
    | f => (s.2.1, f)

/-- Entry point `signAndSubmitTransactions(transactions, wallet, apiClient)`
with offset starting at 0. -/
def signAndSubmitTransactions (env : Nat → StepEnv) (txs : List Tx) :
    List Ev × Ctl :=
  run env 0 0 txs

/-- Nonce values actually logged (`Using nonce: ...`) in a trace, in order. -/
def usedNonces : List Ev → List Int
  | [] => []
  | Ev.useNonce n :: rest => n :: usedNonces rest
  | _ :: rest => usedNonces rest

/-- Payload base nonces of the steps that reach the signing branch and carry
a nonce field, in list order. -/
def baseNonces : List Tx → List Int
  | [] => []
  | tx :: rest =>
    if settled tx.status then baseNonces rest
    else
      match tx.unsignedTransaction with
      | none => baseNonces rest
      | some p =>
        match p.nonce with
        | some b => b :: baseNonces rest
        | none => baseNonces rest

/-- Nonce values the run would log if no step aborted: each step that
reaches the signing branch consumes one offset increment, and each of those
steps carrying a payload nonce logs that base plus the offset. -/
def nonceSchedule (off : Nat) : List Tx → List Int
  | [] => []
  | tx :: rest =>
    if settled tx.status then nonceSchedule off rest
    else
      match tx.unsignedTransaction with
      | none => nonceSchedule off rest
      | some p =>
        match p.nonce with
        | some b => (b + (off : Int)) :: nonceSchedule (off + 1) rest
        | none => nonceSchedule (off + 1) rest

end Yields

namespace Perps

/-- Typed-data payload shape destructured by `signTransaction` in the perps
recipe (src/unnamed/part_008): a domain, a types map and a message.  The
domain, the message and the type definitions are opaque to the recipe, so
they are modelled as strings; the types map is an association list, matching
a JavaScript object with its unique keys. -/
structure TypedPayload where
  domain : String
  types : List (String × String)
  message : String
  deriving DecidableEq, Repr

/-- Signable payload of a perps transaction: either an opaque chain-native
transaction object or structured typed data. -/
inductive SignablePayload where
  | raw (s : String)
  | typed (p : TypedPayload)
  deriving DecidableEq, Repr

/-- Transaction step from the `ApiTransaction` interface of the perps recipe
with the fields its pipeline reads. -/
structure Tx where
  id : String
  network : String
  ty : String
  status : String
  signingFormat : Option String
  signablePayload : Option SignablePayload
  transactionHash : Option String
  link : Option String
  deriving DecidableEq, Repr

/-- Wallet signing primitives (ethers `HDNodeWallet`), modelled as opaque
functions supplied by the environment. -/
structure Wallet where
  signTypedData : String → List (String × String) → String → String
  signTransaction : SignablePayload → String

/-- Rest-destructuring `const (EIP712Domain: _, ...signingTypes) = types`
drops the `EIP712Domain` key of the types object and keeps every other
entry in order. -/
def stripDomainType : List (String × String) → List (String × String)
  | [] => []
  | (k, v) :: rest =>
    if k = "EIP712Domain" then stripDomainType rest
    else (k, v) :: stripDomainType rest

/-- Embedding of `signTransaction(tx, wallet)` of the perps recipe: with no
signable payload it throws; with format `EIP712_TYPED_DATA` it destructures
the payload, strips the `EIP712Domain` entry from the types map and signs
typed data (destructuring a non-object payload throws a TypeError); any
other format signs the payload as a regular transaction. -/
def signTransaction (w : Wallet) (tx : Tx) : Except String String :=
  match tx.signablePayload with
  | none => Except.error "Nothing to sign"
  | some payload =>
    if tx.signingFormat = some "EIP712_TYPED_DATA" then
      match payload with
      | SignablePayload.typed p =>
        Except.ok (w.signTypedData p.domain (stripDomainType p.types) p.message)
      | SignablePayload.raw _ => Except.error "TypeError"
    else
      Except.ok (w.signTransaction payload)

/-- Submit response (`ApiTransaction`) as read by `processTransactions`:
status, optional hash and optional explorer link.  The hyperliquid fill
price is display-only detail and is not modelled. -/
structure SubmitRes where
  status : String
  transactionHash : Option String
  link : Option String
  deriving DecidableEq, Repr

/-- Environment of one step of `processTransactions`: the submit response,
`none` modelling a thrown request. -/
structure StepEnv where
  submit : Option SubmitRes

/-- One iteration of the `processTransactions` loop of the perps recipe.  A
`CONFIRMED` step is skipped before anything is printed; a `BROADCASTED` (or,
in the re-check, `CONFIRMED`) step is skipped after the id line only — in
both cases nothing else happens, in particular no stored hash or link is
displayed.  Otherwise the step is signed and submitted and the response info
printed; a signing or submission error is logged and rethrown, aborting the
run.  There is no confirmation polling in this pipeline, only a fixed
1000 ms delay between steps (not an event). -/
def processStep (w : Wallet) (env : StepEnv) (tx : Tx) : List Ev × Ctl :=
  if tx.status = "CONFIRMED" then ([], Ctl.next)
  else if tx.status = "BROADCASTED" ∨ tx.status = "CONFIRMED" then
    ([Ev.stepLog tx.id], Ctl.next)
  else
    match signTransaction w tx with
    | Except.error _ => ([Ev.stepLog tx.id, Ev.sign tx.id], Ctl.halt)
    | Except.ok _ =>
      match env.submit with
      | none => ([Ev.stepLog tx.id, Ev.sign tx.id, Ev.submit tx.id], Ctl.halt)
      | some res =>
        ([Ev.stepLog tx.id, Ev.sign tx.id, Ev.submit tx.id,
          Ev.statusLine tx.id res.status] ++
           displayInfo res.transactionHash res.link,
         Ctl.next)

/-- Whole-list loop of `processTransactions`. -/
def run (w : Wallet) (env : Nat → StepEnv) : Nat → List Tx → List Ev × Ctl
  | _, [] => ([], Ctl.next)
  | i, tx :: rest =>
    let s := processStep w (env i) tx
    match s.2 with
    | Ctl.next =>
      let r := run w env (i + 1) rest
      (s.1 ++ r.1, r.2)
    | c => (s.1, c)

/-- Entry point `processTransactions(transactions, wallet, apiClient)`. -/
def processTransactions (w : Wallet) (env : Nat → StepEnv) (txs : List Tx) :
    List Ev × Ctl :=
  run w env 0 txs

end Perps

namespace SSv1

/-- Transaction step of an action session, with the fields the
stakekit-signers-stake main loop reads: id, step index, type, status and
declared network. -/
structure Tx where
  id : String
  stepIndex : Nat
  ty : String
  status : String
  network : String
  deriving DecidableEq, Repr

/-- Response of the preparation PATCH: the prepared transaction carries the
network it will execute on and the opaque unsigned payload. -/
structure Unsigned where
  network : String
  unsignedTransaction : String
  deriving DecidableEq, Repr

/-- User gas-mode choice: the unsupported custom mode, or a named mode
carrying opaque gas arguments. -/
inductive GasSel where
  | custom
  | mode (gasArgs : String)
  deriving DecidableEq, Repr

/-- Environment of one step of the first main loop of
src/recipes/stakekit-signers-stake.ts: whether the gas endpoint reports the
network customisable, the gas-mode prompt answer, the PATCH result per
attempt number (`none` models a thrown request), the signature (`none`
models a signing error), whether submission succeeds, and the confirmation
poll responses in order (`none` models a thrown status request, turned into
`null` by the attached catch). -/
structure StepEnv where
  customisable : Bool
  gasSel : GasSel
  prepare : Nat → Option Unsigned
  sign : Option String
  submitOk : Bool
  polls : List (Option String)

/-- Preparation retry loop: up to `fuel` attempts (the code runs it with 3);
a successful PATCH breaks out, a failure logs and sleeps 1000 ms before the
next attempt (the `Ev.retryDelay` event). -/
def prepareLoop (id : String) (prepare : Nat → Option Unsigned) :
    Nat → Nat → Option Unsigned × List Ev
  | _, 0 => (none, [])
  | k, fuel + 1 =>
    match prepare k with
    | some u => (some u, [Ev.prepareAttempt id k])
    | none =>
      let r := prepareLoop id prepare (k + 1) fuel
      (r.1, Ev.prepareAttempt id k :: Ev.retryDelay 1000 :: r.2)

/-- Confirmation loop of the first main loop: an unbounded `while (true)`
polling the status endpoint.  A thrown request is caught into `null` and
treated as pending.  `CONFIRMED` breaks with a success log, `FAILED` breaks
with an error log (and the pipeline continues), anything else sleeps 2000 ms
and polls again; an environment that never resolves makes the loop spin. -/
def statusLoop (id : String) : List (Option String) → Nat → List Ev × Ctl
  | [], _ => ([], Ctl.spin)
  | p :: rest, k =>
    match p with
    | some s =>
      if s = "CONFIRMED" then ([Ev.poll id k, Ev.confirmedLog id], Ctl.next)
      else if s = "FAILED" then ([Ev.poll id k, Ev.failedLog id], Ctl.next)
      else
        let r := statusLoop id rest (k + 1)
        (Ev.poll id k :: r.1, r.2)
    | none =>
      let r := statusLoop id rest (k + 1)
      (Ev.poll id k :: r.1, r.2)

/-- One iteration of the first main loop of
src/recipes/stakekit-signers-stake.ts, threading `lastTx` as the network of
the last prepared-and-submitted step.  `SKIPPED` steps are skipped before
anything else.  If a previous step was submitted on a different network than
the current step's declared network, the loop first waits a fixed 5000 ms
for cross-chain funds.  Then it fetches gas options; when customisable, the
custom gas mode abandons the step (`continue`, `lastTx` unchanged).
Preparation runs with 3 attempts; exhaustion throws, aborting the run.  Then
the step is signed and submitted (either call throwing aborts the run),
`lastTx` becomes the prepared network, and the confirmation loop runs. -/
def processStep (env : StepEnv) (lastNet : Option String) (tx : Tx) :
    Option String × List Ev × Ctl :=
  if tx.status = "SKIPPED" then (lastNet, [Ev.skipStep tx.id], Ctl.next)
  else
    let waitEvs : List Ev :=
      match lastNet with
      | some n => if n ≠ tx.network then [Ev.waitCrossChain 5000] else []
      | none => []
    let head := waitEvs ++ [Ev.stepLog tx.id, Ev.gasFetch tx.network]
    if env.customisable = true ∧ env.gasSel = GasSel.custom then
      (lastNet, head ++ [Ev.gasCustom tx.id], Ctl.next)
    else
      let pr := prepareLoop tx.id env.prepare 0 3
      match pr.1 with
      | none => (lastNet, head ++ pr.2, Ctl.halt)
      | some u =>
        match env.sign with
        | none =>
          (lastNet, head ++ pr.2 ++ [Ev.prepared tx.id, Ev.sign tx.id],
           Ctl.halt)
        | some _ =>
          if env.submitOk = false then
            (lastNet,
             head ++ pr.2 ++ [Ev.prepared tx.id, Ev.sign tx.id, Ev.submit tx.id],
             Ctl.halt)
          else
            let st := statusLoop tx.id env.polls 0
            (some u.network,
             head ++ pr.2 ++
               [Ev.prepared tx.id, Ev.sign tx.id, Ev.submit tx.id] ++ st.1,
             st.2)

/-- Whole-list loop over the session transactions. -/
def run (env : Nat → StepEnv) : Nat → Option String → List Tx → List Ev × Ctl
  | _, _, [] => ([], Ctl.next)
  | i, ln, tx :: rest =>
    let s := processStep (env i) ln tx
    match s.2.2 with
    | Ctl.next =>
      let r := run env (i + 1) s.1 rest
      (s.2.1 ++ r.1, r.2)
    | c => (s.2.1, c)

/-- Transaction-processing part of `main` in
src/recipes/stakekit-signers-stake.ts (first copy), starting with no
previously submitted step. -/
def main (env : Nat → StepEnv) (txs : List Tx) : List Ev × Ctl :=
  run env 0 none txs

end SSv1

namespace SSv2

/-- Environment of one step of the second main loop of
src/recipes/stakekit-signers-stake.ts: locked-balance poll results for the
cross-chain wait (`none` models `find` returning no locked balance, so that
reading `.amount` throws), whether the gas endpoint answered (code other
than 404), the gas-mode prompt answer, the single PATCH result, the
signature, whether submission succeeds, and the status poll responses
(`none` models a thrown status request — this loop has no catch). -/
structure StepEnv where
  waitPolls : List (Option Int)
  gasAvailable : Bool
  gasSel : SSv1.GasSel
  prepare : Option SSv1.Unsigned
  sign : Option String
  submitOk : Bool
  polls : List (Option String)

/-- Cross-chain wait loop of the second main loop: poll the staked balances
until the locked amount reaches the session amount, sleeping 3000 ms
between polls.  A missing locked balance crashes the run; an environment
that never delivers enough makes the loop spin. -/
def waitLoop (sessionAmount : Int) : List (Option Int) → List Ev × Ctl
  | [] => ([], Ctl.spin)
  | none :: _ => ([], Ctl.halt)
  | some amt :: rest =>
    if sessionAmount ≤ amt then ([Ev.balancePoll amt, Ev.lockedAvailable], Ctl.next)
    else
      let r := waitLoop sessionAmount rest
      (Ev.balancePoll amt :: r.1, r.2)

/-- Status loop of the second main loop: like the first variant but a
thrown status request is not caught and aborts the run; the pending sleep
is 3000 ms. -/
def statusLoop (id : String) : List (Option String) → Nat → List Ev × Ctl
  | [], _ => ([], Ctl.spin)
  | none :: _, k => ([Ev.poll id k], Ctl.halt)
  | some s :: rest, k =>
    if s = "CONFIRMED" then ([Ev.poll id k, Ev.confirmedLog id], Ctl.next)
    else if s = "FAILED" then ([Ev.poll id k, Ev.failedLog id], Ctl.next)
    else
      let r := statusLoop id rest (k + 1)
      (Ev.poll id k :: r.1, r.2)

/-- One iteration of the second main loop of
src/recipes/stakekit-signers-stake.ts.  `SKIPPED` steps are skipped
silently.  When a previous step was submitted on a different network, the
wait loop must complete before anything else; otherwise the wait block
breaks immediately.  Gas options come from the integration base network;
the custom gas mode throws, aborting the whole run.  Preparation is a
single PATCH without retry; sign and submit follow, then the status loop.
Sign and submit events record the call being issued. -/
def processStep (sessionAmount : Int) (baseNetwork : String) (env : StepEnv)
    (lastNet : Option String) (tx : SSv1.Tx) :
    Option String × List Ev × Ctl :=
  if tx.status = "SKIPPED" then (lastNet, [], Ctl.next)
  else
    let wait : List Ev × Ctl :=
      match lastNet with
      | some n =>
        if n ≠ tx.network then waitLoop sessionAmount env.waitPolls
        else ([], Ctl.next)
      | none => ([], Ctl.next)
    match wait.2 with
    | Ctl.next =>
      let head := wait.1 ++ [Ev.stepLog tx.id, Ev.gasFetch baseNetwork]
      if env.gasAvailable = true ∧ env.gasSel = SSv1.GasSel.custom then
        (lastNet, head ++ [Ev.gasCustom tx.id], Ctl.halt)
      else
        match env.prepare with
        | none => (lastNet, head ++ [Ev.prepareAttempt tx.id 0], Ctl.halt)
        | some u =>
          match env.sign with
          | none =>
            (lastNet,
             head ++ [Ev.prepareAttempt tx.id 0, Ev.prepared tx.id, Ev.sign tx.id],
             Ctl.halt)
          | some _ =>
            if env.submitOk = false then
              (lastNet,
               head ++ [Ev.prepareAttempt tx.id 0, Ev.prepared tx.id,
                 Ev.sign tx.id, Ev.submit tx.id],
               Ctl.halt)
            else
              let st := statusLoop tx.id env.polls 0
              (some u.network,
               head ++ [Ev.prepareAttempt tx.id 0, Ev.prepared tx.id,
                 Ev.sign tx.id, Ev.submit tx.id] ++ st.1,
               st.2)
    | c => (lastNet, wait.1, c)

/-- Whole-list loop over the session transactions of the second copy. -/
def run (sessionAmount : Int) (baseNetwork : String) (env : Nat → StepEnv) :
    Nat → Option String → List SSv1.Tx → List Ev × Ctl
  | _, _, [] => ([], Ctl.next)
  | i, ln, tx :: rest =>
    let s := processStep sessionAmount baseNetwork (env i) ln tx
    match s.2.2 with
    | Ctl.next =>
      let r := run sessionAmount baseNetwork env (i + 1) s.1 rest
      (s.2.1 ++ r.1, r.2)
    | c => (s.2.1, c)

/-- Transaction-processing part of `main` in
src/recipes/stakekit-signers-stake.ts (second copy). -/
def main (sessionAmount : Int) (baseNetwork : String) (env : Nat → StepEnv)
    (txs : List SSv1.Tx) : List Ev × Ctl :=
  run sessionAmount baseNetwork env 0 none txs

end SSv2

namespace EthersStake

/-- Environment of one step of the main loop of src/recipes/ethers-stake.ts:
the first PATCH (network discovery), the gas-mode prompt answer (the prompt
always runs in this recipe), the second PATCH with gas arguments, whether
`JSON.parse` of the payload succeeds, the signature, whether submission
succeeds, and the status poll responses (a thrown status request is caught
into `null`). -/
structure StepEnv where
  prepare1 : Option SSv1.Unsigned
  gasSel : SSv1.GasSel
  prepare2 : Option SSv1.Unsigned
  parseOk : Bool
  sign : Option String
  submitOk : Bool
  polls : List (Option String)

/-- Status loop of ethers-stake: `CONFIRMED` and `FAILED` both set the
confirmed flag and end the loop (the pipeline continues either way), a
`null` result prints a dot and retries after 2000 ms. -/
def statusLoop (id : String) : List (Option String) → Nat → List Ev × Ctl
  | [], _ => ([], Ctl.spin)
  | p :: rest, k =>
    match p with
    | some s =>
      if s = "CONFIRMED" then ([Ev.poll id k, Ev.confirmedLog id], Ctl.next)
      else if s = "FAILED" then ([Ev.poll id k, Ev.failedLog id], Ctl.next)
      else
        let r := statusLoop id rest (k + 1)
        (Ev.poll id k :: r.1, r.2)
    | none =>
      let r := statusLoop id rest (k + 1)
      (Ev.poll id k :: r.1, r.2)

/-- One iteration of the main loop of src/recipes/ethers-stake.ts.
`SKIPPED` steps are skipped before anything else.  Otherwise the step is
prepared once to learn the actual network, gas options are fetched for it
and the gas prompt runs; the custom gas mode abandons the step
(`continue`).  The step is then re-prepared with the gas arguments, its
payload JSON-parsed (a parse error aborts), signed, submitted and polled.
There is no cross-chain wait in this recipe. -/
def processStep (env : StepEnv) (tx : SSv1.Tx) : List Ev × Ctl :=
  if tx.status = "SKIPPED" then ([Ev.skipStep tx.id], Ctl.next)
  else
    match env.prepare1 with
    | none => ([Ev.stepLog tx.id, Ev.prepareAttempt tx.id 0], Ctl.halt)
    | some u1 =>
      let head := [Ev.stepLog tx.id, Ev.prepareAttempt tx.id 0,
        Ev.gasFetch u1.network]
      if env.gasSel = SSv1.GasSel.custom then
        (head ++ [Ev.gasCustom tx.id], Ctl.next)
      else
        match env.prepare2 with
        | none => (head, Ctl.halt)
        | some _u2 =>
          if env.parseOk = false then (head ++ [Ev.prepared tx.id], Ctl.halt)
          else
            match env.sign with
            | none =>
              (head ++ [Ev.prepared tx.id, Ev.sign tx.id], Ctl.halt)
            | some _ =>
              if env.submitOk = false then
                (head ++ [Ev.prepared tx.id, Ev.sign tx.id, Ev.submit tx.id],
                 Ctl.halt)
              else
                let st := statusLoop tx.id env.polls 0
                (head ++ [Ev.prepared tx.id, Ev.sign tx.id, Ev.submit tx.id] ++
                   st.1,
                 st.2)

/-- Whole-list loop over the session transactions of ethers-stake. -/
def run (env : Nat → StepEnv) : Nat → List SSv1.Tx → List Ev × Ctl
  | _, [] => ([], Ctl.next)
  | i, tx :: rest =>
    let s := processStep (env i) tx
    match s.2 with
    | Ctl.next =>
      let r := run env (i + 1) rest
      (s.1 ++ r.1, r.2)
    | c => (s.1, c)

/-- Transaction-processing part of `main` in src/recipes/ethers-stake.ts. -/
def main (env : Nat → StepEnv) (txs : List SSv1.Tx) : List Ev × Ctl :=
  run env 0 txs

end EthersStake

namespace Jsonish

/-- JSON values, for modelling the stored result of array-typed prompt
fields: either the string pieces of a comma split or the value returned by
`JSON.parse`. -/
inductive Json where
  | null
  | bool (b : Bool)
  | num (n : Int)
  | str (s : String)
  | arr (xs : List Json)
  | obj (fields : List (String × Json))

/-- Leading-whitespace removal used by the `JSON.parse` model. -/
def skipWs : List Char → List Char
  | c :: rest =>
    if c = ' ' ∨ c = '\t' ∨ c = '\n' ∨ c = '\r' then skipWs rest
    else c :: rest
  | [] => []

/-- String-literal body: characters up to the closing quote.  Escape
sequences are not modelled (a backslash fails the parse); the concrete
inputs used below contain none. -/
def parseStrChars : List Char → List Char → Option (String × List Char)
  | [], _ => none
  | c :: rest, acc =>
    if c = '"' then some (String.mk acc.reverse, rest)
    else if c = '\\' then none
    else parseStrChars rest (c :: acc)

/-- Longest leading digit run and the remainder. -/
def parseDigits : List Char → List Char × List Char
  | c :: rest =>
    if c.isDigit then
      let r := parseDigits rest
      (c :: r.1, r.2)
    else ([], c :: rest)
  | [] => ([], [])

/-- Digit run to a natural number. -/
def digitsToNat (ds : List Char) : Nat :=
  ds.foldl (fun a c => a * 10 + (c.toNat - 48)) 0

mutual

/-- Recursive-descent value parser modelling `JSON.parse`, with fuel for
termination.  Numbers are modelled as integers (fraction and exponent parts
fail the parse; the properties below never feed them). -/
def parseVal : Nat → List Char → Option (Json × List Char)
  | 0, _ => none
  | fuel + 1, cs =>
    match skipWs cs with
    | [] => none
    | c :: rest =>
      if c = 'n' then
        match rest with
        | 'u' :: 'l' :: 'l' :: r => some (Json.null, r)
        | _ => none
      else if c = 't' then
        match rest with
        | 'r' :: 'u' :: 'e' :: r => some (Json.bool true, r)
        | _ => none
      else if c = 'f' then
        match rest with
        | 'a' :: 'l' :: 's' :: 'e' :: r => some (Json.bool false, r)
        | _ => none
      else if c = '"' then
        match parseStrChars rest [] with
        | some (s, r) => some (Json.str s, r)
        | none => none
      else if c = '[' then
        match skipWs rest with
        | ']' :: r => some (Json.arr [], r)
        | r2 => match parseItems fuel r2 with
          | some (xs, r) => some (Json.arr xs, r)
          | none => none
      else if c = '{' then
        match skipWs rest with
        | '}' :: r => some (Json.obj [], r)
        | r2 => match parseFields fuel r2 with
          | some (fs, r) => some (Json.obj fs, r)
          | none => none
      else if c = '-' then
        match parseDigits rest with
        | ([], _) => none
        | (ds, r) => some (Json.num (-(digitsToNat ds : Int)), r)
      else if c.isDigit then
        let p := parseDigits (c :: rest)
        some (Json.num (digitsToNat p.1 : Int), p.2)
      else none

/-- Comma-separated array elements up to the closing bracket. -/
def parseItems : Nat → List Char → Option (List Json × List Char)
  | 0, _ => none
  | fuel + 1, cs =>
    match parseVal fuel cs with
    | none => none
    | some (j, rest) =>
      match skipWs rest with
      | ',' :: r2 =>
        match parseItems fuel r2 with
        | some (xs, r) => some (j :: xs, r)
        | none => none
      | ']' :: r2 => some ([j], r2)
      | _ => none

/-- Comma-separated object members up to the closing brace. -/
def parseFields : Nat → List Char → Option (List (String × Json) × List Char)
  | 0, _ => none
  | fuel + 1, cs =>
    match skipWs cs with
    | '"' :: r0 =>
      match parseStrChars r0 [] with
      | none => none
      | some (k, r1) =>
        match skipWs r1 with
        | ':' :: r2 =>
          match parseVal fuel r2 with
          | none => none
          | some (v, r3) =>
            match skipWs r3 with
            | ',' :: r4 =>
              match parseFields fuel r4 with
              | some (fs, r) => some ((k, v) :: fs, r)
              | none => none
            | '}' :: r4 => some ([(k, v)], r4)
            | _ => none
        | _ => none
    | _ => none

end

/-- Model of `JSON.parse`: parse one value and require only whitespace to
remain. -/
def parse (s : String) : Option Json :=
  match parseVal (s.length + 1) s.data with
  | some (j, rest) => if skipWs rest = [] then some j else none
  | none => none

/-- JavaScript `split(",")` over the character list: pieces between commas,
empty pieces kept. -/
def splitComma : List Char → List Char → List (List Char)
  | [], acc => [acc.reverse]
  | c :: rest, acc =>
    if c = ',' then acc.reverse :: splitComma rest []
    else splitComma rest (c :: acc)

/-- JavaScript `trim()` over the character list: strip leading and trailing
whitespace. -/
def jsTrim (cs : List Char) : List Char :=
  (skipWs (skipWs cs).reverse).reverse

/-- Comma split with per-piece trim, the JavaScript
`value.split(",").map(v => v.trim())` expression shared by both prompters. -/
def splitTrim (s : String) : Json :=
  Json.arr ((splitComma s.data []).map (fun cs => Json.str (String.mk (jsTrim cs))))

/-- JavaScript `includes("[")`: a bracket anywhere in the input. -/
def hasBracket (s : String) : Bool :=
  s.data.any (fun c => c = '[')

/-- Leading-bracket test, the detection rule as the specification words
it. -/
def leadBracket (s : String) : Bool :=
  match s.data with
  | c :: _ => c = '['
  | [] => false

/-- Array-field branch of `promptFromSchema` in the perps recipe
(src/unnamed/part_008): an empty input stores nothing; an input containing a
bracket anywhere is fed to `JSON.parse`, falling back to the comma split
when parsing throws; any other input is comma split and trimmed. -/
def promptFromSchemaArrayValue (input : String) : Option Json :=
  if input = "" then none
  else
    some
      (if hasBracket input then
        match parse input with
        | some j => j
        | none => splitTrim input
      else splitTrim input)

/-- Array-field branch of `promptForArguments` in src/recipes/yields.ts
(`field.isArray`): an empty input stores nothing; any other input is comma
split and trimmed.  There is no JSON detection in this prompter. -/
def promptForArgumentsArrayValue (input : String) : Option Json :=
  if input = "" then none else some (splitTrim input)

/-- Array-field behaviour as the specification words it (for comparison
with the two code branches above): a literal JSON array is detected by a
leading bracket and the parsed value is stored; otherwise the input is comma
split and trimmed; an empty input stores nothing. -/
def specArrayValue (input : String) : Option Json :=
  if input = "" then none
  else if leadBracket input then
    match parse input with
    | some j => some j
    | none => some (splitTrim input)
  else some (splitTrim input)

end Jsonish

namespace SignedMeta

/-- Hex digit value of a character, if any. -/
def hexDigit (c : Char) : Option Nat :=
  if '0' ≤ c ∧ c ≤ '9' then some (c.toNat - 48)
  else if 'a' ≤ c ∧ c ≤ 'f' then some (c.toNat - 87)
  else if 'A' ≤ c ∧ c ≤ 'F' then some (c.toNat - 55)
  else none

/-- Node `Buffer.from(hex, "hex")` semantics: decode two characters at a
time and stop at the first invalid or incomplete pair, keeping what was
decoded so far. -/
def hexDecode : List Char → List Nat
  | c1 :: c2 :: rest =>
    match hexDigit c1, hexDigit c2 with
    | some h, some l => (16 * h + l) :: hexDecode rest
    | _, _ => []
  | _ => []

/-- Optional action summary checked against the metadata: the asset id and
the asset ticker. -/
structure Summary where
  assetId : Nat
  asset : String
  deriving DecidableEq, Repr

/-- Big-endian 32-bit read at offset 0 (`readUInt32BE(0)`); `none` models
the RangeError thrown when fewer than 4 bytes are available. -/
def be32 : List Nat → Option Nat
  | b0 :: b1 :: b2 :: b3 :: _ => some (((b0 * 256 + b1) * 256 + b2) * 256 + b3)
  | _ => none

/-- Per-record checks of the TLV loop in `verifySignedMetadata`
(src/unnamed/part_008), given the tag and the value slice.  `some r` means
the loop returns `r` at this record (an `Except.error` models a thrown
`readUInt32BE`); `none` means no check fired and the loop moves on.  An
out-of-range `val(0)` read yields `undefined` in JavaScript: it differs from
`0x2b` and `0x01` (so those checks fire) and is not greater than 3 (so the
action-type check does not). -/
def tlvStep (utf8 : List Nat → String) (summary : Option Summary)
    (tag : Nat) (val : List Nat) : Option (Except Unit Bool) :=
  if tag = 0x01 ∧ val.head? ≠ some 0x2b then some (Except.ok false)
  else if tag = 0x02 ∧ val.head? ≠ some 0x01 then some (Except.ok false)
  else if tag = 0xd0 ∧ 3 < (val.head?.getD 0) then some (Except.ok false)
  else
    match summary with
    | some s =>
      if tag = 0xd1 then
        match be32 val with
        | none => some (Except.error ())
        | some v => if v ≠ s.assetId then some (Except.ok false) else none
      else if tag = 0x24 ∧ utf8 val ≠ s.asset then some (Except.ok false)
      else none
    | none => none

/-- TLV walk of `verifySignedMetadata` in suffix form, with explicit fuel
for structural recursion.  The byte offset `i` of the source is the amount
dropped from the metadata: each iteration reads the tag and the length
byte, slices the value, runs the checks and steps by the claimed length.
When the length byte is missing, the value slice is empty and the following
`i += 2 + len` makes the index `NaN`, ending the loop with a `true` verdict
after the current record's checks.  Each iteration consumes at least two
bytes, so with fuel the length of the metadata the zero-fuel arm is
unreachable. -/
def tlvWalkF (utf8 : List Nat → String) (summary : Option Summary) :
    Nat → List Nat → Except Unit Bool
  | _, [] => Except.ok true
  | _, [tag] =>
    (match tlvStep utf8 summary tag [] with
     | some r => r
     | none => Except.ok true)
  | 0, _ :: _ :: _ => Except.ok true
  | fuel + 1, tag :: len :: rest =>
    match tlvStep utf8 summary tag (rest.take len) with
    | some r => r
    | none => tlvWalkF utf8 summary fuel (rest.drop len)

/-- TLV walk at its adequate fuel. -/
def tlvWalk (utf8 : List Nat → String) (summary : Option Summary)
    (m : List Nat) : Except Unit Bool :=
  tlvWalkF utf8 summary m.length m

/-- Records framed by the TLV walk: the (tag, value) pairs the loop visits,
in order, with the same fuel discipline as `tlvWalkF`. -/
def tlvRecordsF : Nat → List Nat → List (Nat × List Nat)
  | _, [] => []
  | _, [tag] => [(tag, [])]
  | 0, _ :: _ :: _ => []
  | fuel + 1, tag :: len :: rest =>
    (tag, rest.take len) :: tlvRecordsF fuel (rest.drop len)

/-- Records framed by the TLV walk at the adequate fuel. -/
def tlvRecords (m : List Nat) : List (Nat × List Nat) :=
  tlvRecordsF m.length m

/-- Metadata part of the decoded buffer: the bytes before the first `0x15`
(empty when no `0x15` is present, in which case the function already
answered false). -/
def metadataOf (hex : String) : List Nat :=
  let buf := hexDecode hex.data
  match buf.findIdx? (· == 0x15) with
  | none => []
  | some sigIdx => buf.take sigIdx

/-- Signature part of the decoded buffer: the slice after the `0x15` tag and
its length byte, of the claimed length (empty when the length byte is
missing, modelling the `undefined` arithmetic of the source). -/
def signatureOf (hex : String) : List Nat :=
  let buf := hexDecode hex.data
  match buf.findIdx? (· == 0x15) with
  | none => []
  | some sigIdx =>
    match buf.get? (sigIdx + 1) with
    | none => []
    | some len => (buf.drop (sigIdx + 2)).take len

/-- Try-block body of `verifySignedMetadata(hex, summary)` of the perps
recipe: decode the hex, fail when no `0x15` signature tag is present, check
the signature over the metadata bytes and then walk the TLV records.  A
thrown error is an `Except.error`.  The metadata and signature slices are
the ones named by `metadataOf` and `signatureOf`. -/
def verifyBody (sigVerify : List Nat → List Nat → Bool)
    (utf8 : List Nat → String) (hex : String) (summary : Option Summary) :
    Except Unit Bool :=
  match (hexDecode hex.data).findIdx? (· == 0x15) with
  | none => Except.ok false
  | some _ =>
    if sigVerify (metadataOf hex) (signatureOf hex) then
      tlvWalk utf8 summary (metadataOf hex)
    else Except.ok false

/-- Embedding of `verifySignedMetadata(hex, summary)` of the perps recipe.
The ECDSA verification against the pinned public key and the utf8 decoding
of buffers are external collaborators, passed as functions.  The whole body
runs under a try/catch that turns any thrown error into `false`, which the
final match models. -/
def verifySignedMetadata (sigVerify : List Nat → List Nat → Bool)
    (utf8 : List Nat → String) (hex : String) (summary : Option Summary) :
    Bool :=
  match verifyBody sigVerify utf8 hex summary with
  | Except.ok b => b
  | Except.error _ => false

/-- Field checks of the claim, per framed record: structure type `0x2b`,
version 1, action type at most 3, and (against a given summary) asset id and
asset ticker equality. -/
def recordOk (utf8 : List Nat → String) (summary : Option Summary)
    (r : Nat × List Nat) : Prop :=
  (r.1 = 0x01 → r.2.head? = some 0x2b) ∧
  (r.1 = 0x02 → r.2.head? = some 0x01) ∧
  (r.1 = 0xd0 → ∀ v, r.2.head? = some v → v ≤ 3) ∧
  (∀ s, summary = some s → r.1 = 0xd1 → be32 r.2 = some s.assetId) ∧
  (∀ s, summary = some s → r.1 = 0x24 → utf8 r.2 = s.asset)

end SignedMeta

/-- Association-list read modelling a JavaScript object property access on
the types map. -/
def assocLookup (k : String) : List (String × String) → Option String
  | [] => none
  | (a, v) :: rest => if a = k then some v else assocLookup k rest

/-- Stripping the domain type keeps every other key bound to its original
type definition. -/
theorem assocLookup_strip_ne (ts : List (String × String)) (k : String)
    (hk : k ≠ "EIP712Domain") :
    assocLookup k (Perps.stripDomainType ts) = assocLookup k ts := by
  induction ts with
  | nil => rfl
  | cons kv rest ih =>
    obtain ⟨a, v⟩ := kv
    by_cases h : a = "EIP712Domain"
    · have hak : ¬ ("EIP712Domain" = k) := by
        intro hc
        exact hk hc.symm
      simp only [Perps.stripDomainType, h, if_true, assocLookup, if_neg hak,
        if_pos rfl]
      exact ih
    · simp only [Perps.stripDomainType, if_neg h, assocLookup]
      by_cases h2 : a = k
      · simp only [h2, if_true, if_pos rfl]
      · simp only [if_neg h2]
        exact ih

/-- Stripping the domain type removes every `EIP712Domain` binding. -/
theorem assocLookup_strip_domain (ts : List (String × String)) :
    assocLookup "EIP712Domain" (Perps.stripDomainType ts) = none := by
  induction ts with
  | nil => rfl
  | cons kv rest ih =>
    obtain ⟨a, v⟩ := kv
    by_cases h : a = "EIP712Domain"
    · simp only [Perps.stripDomainType, h, if_true, if_pos rfl]
      exact ih
    · have hne : ¬ a = "EIP712Domain" := h
      simp only [Perps.stripDomainType, if_neg h, assocLookup, if_neg hne]
      exact ih

/-- C8: for a transaction whose declared signing format is EIP-712 typed
data, `signTransaction` passes the payload's domain, message and the types
map with the embedded `EIP712Domain` entry removed to the wallet's
typed-data signer and returns that signature; every other key of the types
map is passed through bound to its original definition and the
`EIP712Domain` key is gone; for any other signing format the payload is
signed as a regular transaction object. -/
theorem C8_eip712_signing :
    (∀ (w : Perps.Wallet) (tx : Perps.Tx) (p : Perps.TypedPayload),
      tx.signingFormat = some "EIP712_TYPED_DATA" →
      tx.signablePayload = some (Perps.SignablePayload.typed p) →
      Perps.signTransaction w tx =
        Except.ok
          (w.signTypedData p.domain (Perps.stripDomainType p.types)
            p.message)) ∧
    (∀ (ts : List (String × String)) (k : String), k ≠ "EIP712Domain" →
      assocLookup k (Perps.stripDomainType ts) = assocLookup k ts) ∧
    (∀ ts, assocLookup "EIP712Domain" (Perps.stripDomainType ts) = none) ∧
    (∀ (w : Perps.Wallet) (tx : Perps.Tx) (payload : Perps.SignablePayload),
      tx.signingFormat ≠ some "EIP712_TYPED_DATA" →
      tx.signablePayload = some payload →
      Perps.signTransaction w tx = Except.ok (w.signTransaction payload)) := by
  refine ⟨?_, fun ts k hk => assocLookup_strip_ne ts k hk,
    fun ts => assocLookup_strip_domain ts, ?_⟩
  · intro w tx p hf hp
    simp [Perps.signTransaction, hp, hf]
  · intro w tx payload hf hp
    simp [Perps.signTransaction, hp, hf]

/-- Concrete wallet for the C8 witness. -/
def walletC8 : Perps.Wallet :=
  ⟨fun d ts m => d ++ toString ts.length ++ m, fun _ => "rawsig"⟩

/-- Concrete types map for the C8 witness: a domain entry and an order
entry. -/
def typesC8 : List (String × String) :=
  [("EIP712Domain", "domfields"), ("Order", "orderfields")]

/-- Concrete typed-data transaction for the C8 witness. -/
def txC8 : Perps.Tx :=
  { id := "p1", network := "ethereum", ty := "open", status := "CREATED",
    signingFormat := some "EIP712_TYPED_DATA",
    signablePayload := some (Perps.SignablePayload.typed ⟨"dom", typesC8, "msg"⟩),
    transactionHash := none, link := none }

/-- Witness for C8 at a concrete wallet and transaction. -/
theorem C8_eip712_signing_witness :
    Perps.signTransaction walletC8 txC8 =
      Except.ok
        (walletC8.signTypedData "dom" (Perps.stripDomainType typesC8) "msg") ∧
    assocLookup "Order" (Perps.stripDomainType typesC8) =
      assocLookup "Order" typesC8 ∧
    assocLookup "EIP712Domain" (Perps.stripDomainType typesC8) = none ∧
    Perps.signTransaction walletC8
        { txC8 with signingFormat := some "EVM_TRANSACTION" } =
      Except.ok
        (walletC8.signTransaction
          (Perps.SignablePayload.typed ⟨"dom", typesC8, "msg"⟩)) :=
  ⟨C8_eip712_signing.1 walletC8 txC8 ⟨"dom", typesC8, "msg"⟩ rfl rfl,
   C8_eip712_signing.2.1 typesC8 "Order" (by decide),
   C8_eip712_signing.2.2.1 typesC8,
   C8_eip712_signing.2.2.2 walletC8
     { txC8 with signingFormat := some "EVM_TRANSACTION" }
     (Perps.SignablePayload.typed ⟨"dom", typesC8, "msg"⟩) (by decide) rfl⟩

/-- C9 (amended): the perps prompter `promptFromSchema` stores, for an
array-typed field, the JSON-parsed value whenever the input contains a
bracket anywhere and parses, and otherwise the comma-split trimmed pieces
(also when parsing throws); the yields prompter `promptForArguments` always
stores the comma-split trimmed pieces with no JSON detection; in both, an
empty input leaves the field out of the result map. -/
theorem C9_array_prompt :
    (Jsonish.promptFromSchemaArrayValue "" = none ∧
     Jsonish.promptForArgumentsArrayValue "" = none) ∧
    (∀ s : String, s ≠ "" → Jsonish.hasBracket s = false →
      Jsonish.promptFromSchemaArrayValue s = some (Jsonish.splitTrim s)) ∧
    (∀ (s : String) (j : Jsonish.Json), s ≠ "" →
      Jsonish.hasBracket s = true → Jsonish.parse s = some j →
      Jsonish.promptFromSchemaArrayValue s = some j) ∧
    (∀ s : String, s ≠ "" → Jsonish.hasBracket s = true →
      Jsonish.parse s = none →
      Jsonish.promptFromSchemaArrayValue s = some (Jsonish.splitTrim s)) ∧
    (∀ s : String, s ≠ "" →
      Jsonish.promptForArgumentsArrayValue s = some (Jsonish.splitTrim s)) := by
  refine ⟨⟨rfl, rfl⟩, ?_, ?_, ?_, ?_⟩
  · intro s hs hc
    simp [Jsonish.promptFromSchemaArrayValue, hs, hc]
  · intro s j hs hc hp
    simp [Jsonish.promptFromSchemaArrayValue, hs, hc, hp]
  · intro s hs hc hp
    simp [Jsonish.promptFromSchemaArrayValue, hs, hc, hp]
  · intro s hs
    simp [Jsonish.promptForArgumentsArrayValue, hs]

/-- Witness for C9 at concrete inputs: a bracket-free input is split and
trimmed by the perps prompter, a parsing bracket input is stored parsed, and
the yields prompter splits a bracket input instead of parsing it. -/
theorem C9_array_prompt_witness :
    Jsonish.promptFromSchemaArrayValue "a, b" =
      some (Jsonish.splitTrim "a, b") ∧
    Jsonish.promptFromSchemaArrayValue "[1,2]" =
      some (Jsonish.Json.arr [Jsonish.Json.num 1, Jsonish.Json.num 2]) ∧
    Jsonish.promptForArgumentsArrayValue "[1,2]" =
      some (Jsonish.splitTrim "[1,2]") :=
  ⟨C9_array_prompt.2.1 "a, b" (by decide) rfl,
   C9_array_prompt.2.2.1 "[1,2]"
     (Jsonish.Json.arr [Jsonish.Json.num 1, Jsonish.Json.num 2])
     (by decide) rfl rfl,
   C9_array_prompt.2.2.2.2 "[1,2]" (by decide)⟩

/-- Counterexample to C9 as stated.  The claim describes one splitting rule
with JSON detection by a leading bracket.  The yields prompter never
JSON-parses: on the literal JSON array input `[1,2]` it stores the split
pieces, not the parsed array the claim requires.  The perps prompter
detects a bracket anywhere, not a leading bracket: on the input `space
bracket 1,2 bracket` (a JSON array after leading whitespace) it stores the
parsed array where the claim requires the split pieces. -/
theorem C9_array_prompt_counterexample :
    Jsonish.promptForArgumentsArrayValue "[1,2]" ≠
      Jsonish.specArrayValue "[1,2]" ∧
    Jsonish.promptFromSchemaArrayValue " [1,2]" ≠
      Jsonish.specArrayValue " [1,2]" := by
  constructor
  · have h1 : Jsonish.promptForArgumentsArrayValue "[1,2]" =
        some (Jsonish.Json.arr [Jsonish.Json.str "[1", Jsonish.Json.str "2]"]) :=
      rfl
    have h2 : Jsonish.specArrayValue "[1,2]" =
        some (Jsonish.Json.arr [Jsonish.Json.num 1, Jsonish.Json.num 2]) := rfl
    rw [h1, h2]
    simp
  · have h1 : Jsonish.promptFromSchemaArrayValue " [1,2]" =
        some (Jsonish.Json.arr [Jsonish.Json.num 1, Jsonish.Json.num 2]) := rfl
    have h2 : Jsonish.specArrayValue " [1,2]" =
        some (Jsonish.Json.arr [Jsonish.Json.str "[1", Jsonish.Json.str "2]"]) :=
      rfl
    rw [h1, h2]
    simp

/-- TLV checks never return a positive verdict themselves: a fired check is
either a false verdict or a thrown read. -/
theorem tlvStep_ne_ok_true (utf8 : List Nat → String)
    (summary : Option SignedMeta.Summary) (tag : Nat) (val : List Nat) :
    SignedMeta.tlvStep utf8 summary tag val ≠ some (Except.ok true) := by
  cases summary with
  | none =>
    unfold SignedMeta.tlvStep
    split_ifs <;> simp
  | some s =>
    unfold SignedMeta.tlvStep
    simp only
    split_ifs <;> try simp
    cases hbe : SignedMeta.be32 val with
    | none => simp
    | some v => by_cases hva : v = s.assetId <;> simp [hva]

/-- When no check fires on a record, the record satisfies the claimed field
checks. -/
theorem tlvStep_none_recordOk (utf8 : List Nat → String)
    (summary : Option SignedMeta.Summary) (tag : Nat) (val : List Nat)
    (h : SignedMeta.tlvStep utf8 summary tag val = none) :
    SignedMeta.recordOk utf8 summary (tag, val) := by
  unfold SignedMeta.tlvStep at h
  refine ⟨?_, ?_, ?_, ?_, ?_⟩
  · intro ht
    have ht2 : tag = 1 := ht
    by_contra hv
    have hv2 : ¬ val.head? = some 43 := hv
    simp [ht2, hv2] at h
  · intro ht
    have ht2 : tag = 2 := ht
    by_contra hv
    have hv2 : ¬ val.head? = some 1 := hv
    simp [ht2, hv2] at h
  · intro ht v hv
    have ht2 : tag = 208 := ht
    have hv2 : val.head? = some v := hv
    by_contra hgt
    push_neg at hgt
    simp [ht2, hv2, hgt] at h
  · intro s hsum ht
    have ht2 : tag = 209 := ht
    subst hsum
    cases hbe : SignedMeta.be32 val with
    | none => simp [ht2, hbe] at h
    | some v =>
      by_contra hv
      have hvne : ¬ v = s.assetId := by
        intro hc
        exact hv (by rw [hc])
      simp [ht2, hbe, hvne] at h
  · intro s hsum ht
    have ht2 : tag = 36 := ht
    subst hsum
    by_contra hv
    have hv2 : ¬ utf8 val = s.asset := hv
    simp [ht2, hv2] at h

/-- A TLV walk that ends with a true verdict visited only records passing
the claimed field checks, for any adequate fuel. -/
theorem tlvWalkF_sound (utf8 : List Nat → String)
    (summary : Option SignedMeta.Summary) :
    ∀ (fuel : Nat) (m : List Nat), m.length ≤ fuel →
      SignedMeta.tlvWalkF utf8 summary fuel m = Except.ok true →
      ∀ r ∈ SignedMeta.tlvRecordsF fuel m,
        SignedMeta.recordOk utf8 summary r := by
  intro fuel
  induction fuel with
  | zero =>
    intro m hlen hw r hr
    interval_cases hm : m.length
    · have : m = [] := List.length_eq_zero.mp hm
      subst this
      simp [SignedMeta.tlvRecordsF] at hr
  | succ fuel ih =>
    intro m hlen hw r hr
    match m with
    | [] => simp [SignedMeta.tlvRecordsF] at hr
    | [tag] =>
      have hstep : SignedMeta.tlvStep utf8 summary tag [] = none := by
        cases hs : SignedMeta.tlvStep utf8 summary tag [] with
        | none => rfl
        | some rr =>
          exfalso
          unfold SignedMeta.tlvWalkF at hw
          rw [hs] at hw
          subst hw
          exact tlvStep_ne_ok_true utf8 summary tag [] hs
      simp [SignedMeta.tlvRecordsF] at hr
      subst hr
      exact tlvStep_none_recordOk utf8 summary tag [] hstep
    | tag :: len :: rest =>
      have hstep : SignedMeta.tlvStep utf8 summary tag (rest.take len) = none := by
        cases hs : SignedMeta.tlvStep utf8 summary tag (rest.take len) with
        | none => rfl
        | some rr =>
          exfalso
          unfold SignedMeta.tlvWalkF at hw
          rw [hs] at hw
          subst hw
          exact tlvStep_ne_ok_true utf8 summary tag (rest.take len) hs
      have hw2 : SignedMeta.tlvWalkF utf8 summary fuel (rest.drop len) =
          Except.ok true := by
        unfold SignedMeta.tlvWalkF at hw
        rw [hstep] at hw
        exact hw
      have hlen2 : (rest.drop len).length ≤ fuel := by
        simp only [List.length_drop]
        simp only [List.length_cons] at hlen
        omega
      simp only [SignedMeta.tlvRecordsF, List.mem_cons] at hr
      rcases hr with hr | hr
      · subst hr
        exact tlvStep_none_recordOk utf8 summary tag (rest.take len) hstep
      · exact ih (rest.drop len) hlen2 hw2 r hr

/-- C10: `verifySignedMetadata` is total over its shallow embedding — every
thrown read inside the body is caught and turned into a false verdict — and
it answers true only when the embedded signature verifies over the metadata
bytes against the verifier and every TLV record the walk frames passes the
present field checks: structure type, version, action-type range, and,
against a given summary, asset id and asset ticker equality. -/
theorem C10_verify_metadata (sigVerify : List Nat → List Nat → Bool)
    (utf8 : List Nat → String) (hex : String)
    (summary : Option SignedMeta.Summary)
    (h : SignedMeta.verifySignedMetadata sigVerify utf8 hex summary = true) :
    sigVerify (SignedMeta.metadataOf hex) (SignedMeta.signatureOf hex) = true ∧
    ∀ r ∈ SignedMeta.tlvRecords (SignedMeta.metadataOf hex),
      SignedMeta.recordOk utf8 summary r := by
  unfold SignedMeta.verifySignedMetadata SignedMeta.verifyBody at h
  cases hIdx : (SignedMeta.hexDecode hex.data).findIdx? (· == 0x15) with
  | none =>
    rw [hIdx] at h
    simp at h
  | some sigIdx =>
    rw [hIdx] at h
    cases hv : sigVerify (SignedMeta.metadataOf hex) (SignedMeta.signatureOf hex) with
    | false =>
      rw [hv] at h
      simp at h
    | true =>
      rw [hv] at h
      simp only [if_true] at h
      refine ⟨rfl, ?_⟩
      cases hw : SignedMeta.tlvWalk utf8 summary (SignedMeta.metadataOf hex) with
      | ok b =>
        rw [hw] at h
        cases b with
        | true =>
          exact tlvWalkF_sound utf8 summary (SignedMeta.metadataOf hex).length
            (SignedMeta.metadataOf hex) le_rfl hw
        | false => simp at h
      | error e =>
        rw [hw] at h
        simp at h

/-- Witness for C10: a concrete hex blob (structure record, then a tagged
signature) accepted under the always-true verifier, whose records hence all
pass the field checks. -/
theorem C10_verify_metadata_witness :
    SignedMeta.verifySignedMetadata (fun _ _ => true) (fun _ => "")
      "01012b1501aa" none = true ∧
    (∀ r ∈ SignedMeta.tlvRecords (SignedMeta.metadataOf "01012b1501aa"),
      SignedMeta.recordOk (fun _ => "") none r) :=
  ⟨rfl,
   (C10_verify_metadata (fun _ _ => true) (fun _ => "") "01012b1501aa" none
     rfl).2⟩

/-- Submission-call events of a trace. -/
def isSubmitEv : Ev → Bool
  | Ev.submit _ => true
  | _ => false

/-- First step of the sample scenario: a created ethereum step. -/
def scenarioTx1 : SSv1.Tx :=
  { id := "t1", stepIndex := 0, ty := "approve", status := "CREATED",
    network := "ethereum" }

/-- Second step of the sample scenario: a server-skipped ethereum step. -/
def scenarioTx2 : SSv1.Tx :=
  { id := "t2", stepIndex := 1, ty := "bridge", status := "SKIPPED",
    network := "ethereum" }

/-- Third step of the sample scenario: a created polygon step. -/
def scenarioTx3 : SSv1.Tx :=
  { id := "t3", stepIndex := 2, ty := "stake", status := "CREATED",
    network := "polygon" }

/-- Well-behaved environment for the sample scenario: gas not customisable,
preparation succeeds at once on the step's own network, signing and
submission succeed, the first status poll confirms. -/
def scenarioEnv : Nat → SSv1.StepEnv := fun i =>
  { customisable := false, gasSel := SSv1.GasSel.mode "average",
    prepare := fun _ =>
      some { network := if i = 2 then "polygon" else "ethereum",
             unsignedTransaction := "payload" },
    sign := some "signed", submitOk := true, polls := [some "CONFIRMED"] }

/-- C3: on the step list t1 created on ethereum, t2 skipped, t3 created on
polygon, the stake pipeline prepares, signs and submits t1, performs
nothing for t2 beyond its skip log, waits for the cross-chain condition
before any processing of t3, then prepares, signs and submits t3 — so
exactly two transactions are submitted, t1 then t3. -/
theorem C3_sample_scenario :
    SSv1.main scenarioEnv [scenarioTx1, scenarioTx2, scenarioTx3] =
      ([Ev.stepLog "t1", Ev.gasFetch "ethereum", Ev.prepareAttempt "t1" 0,
        Ev.prepared "t1", Ev.sign "t1", Ev.submit "t1", Ev.poll "t1" 0,
        Ev.confirmedLog "t1",
        Ev.skipStep "t2",
        Ev.waitCrossChain 5000, Ev.stepLog "t3", Ev.gasFetch "polygon",
        Ev.prepareAttempt "t3" 0, Ev.prepared "t3", Ev.sign "t3",
        Ev.submit "t3", Ev.poll "t3" 0, Ev.confirmedLog "t3"], Ctl.next) ∧
    (SSv1.main scenarioEnv [scenarioTx1, scenarioTx2, scenarioTx3]).1.filter
        isSubmitEv =
      [Ev.submit "t1", Ev.submit "t3"] := by
  constructor
  · rfl
  · rfl

/-- C2 (amended): in the stake pipelines (both copies of
stakekit-signers-stake and ethers-stake) a step with status `SKIPPED` is
skipped before any gas, prepare, sign or submit call and the loop moves on
with its state unchanged; the yields pipeline has no `SKIPPED` check and
skips such a step only when it carries no unsigned payload. -/
theorem C2_skip_semantics :
    (∀ (env : SSv1.StepEnv) (ln : Option String) (tx : SSv1.Tx),
      tx.status = "SKIPPED" →
      SSv1.processStep env ln tx = (ln, [Ev.skipStep tx.id], Ctl.next)) ∧
    (∀ (env : EthersStake.StepEnv) (tx : SSv1.Tx), tx.status = "SKIPPED" →
      EthersStake.processStep env tx = ([Ev.skipStep tx.id], Ctl.next)) ∧
    (∀ (amount : Int) (base : String) (env : SSv2.StepEnv) (ln : Option String)
        (tx : SSv1.Tx), tx.status = "SKIPPED" →
      SSv2.processStep amount base env ln tx = (ln, [], Ctl.next)) ∧
    (∀ (env : Yields.StepEnv) (off : Nat) (tx : Yields.Tx),
      tx.status = "SKIPPED" → tx.unsignedTransaction = none →
      Yields.processStep env off tx =
        (off, [Ev.stepLog tx.id, Ev.noPayload tx.id], Ctl.next)) := by
  refine ⟨?_, ?_, ?_, ?_⟩
  · intro env ln tx h
    simp [SSv1.processStep, h]
  · intro env tx h
    simp [EthersStake.processStep, h]
  · intro amount base env ln tx h
    simp [SSv2.processStep, h]
  · intro env off tx h hp
    have hns : ¬ Yields.settled tx.status := by
      rw [h]
      decide
    simp [Yields.processStep, hns, hp]

/-- Server-skipped yields step that nevertheless carries an unsigned
payload. -/
def skTx : Yields.Tx :=
  { id := "s1", network := "ethereum", status := "SKIPPED", ty := "approve",
    unsignedTransaction := some { nonce := some 1 }, hash := none,
    explorerUrl := none }

/-- Benign environment for the skipped-step counterexample. -/
def skEnv : Yields.StepEnv :=
  { signOk := true,
    submit := some { status := "CONFIRMED", hash := none, explorerUrl := none },
    polls := fun _ =>
      some { status := "CONFIRMED", hash := none, explorerUrl := none } }

/-- Counterexample to C2 as stated over every pipeline of the repository:
the yields `signAndSubmitTransactions` loop never checks for `SKIPPED`, so
a skipped step that carries an unsigned payload is signed and submitted. -/
theorem C2_skip_counterexample :
    skTx.status = "SKIPPED" ∧
    Ev.sign "s1" ∈ (Yields.processStep skEnv 0 skTx).2.1 ∧
    Ev.submit "s1" ∈ (Yields.processStep skEnv 0 skTx).2.1 := by
  refine ⟨rfl, ?_, ?_⟩ <;> decide

/-- Witness for C2 at concrete skipped steps in all four pipelines. -/
theorem C2_skip_semantics_witness :
    SSv1.processStep (scenarioEnv 1) none scenarioTx2 =
      (none, [Ev.skipStep "t2"], Ctl.next) ∧
    EthersStake.processStep
      { prepare1 := none, gasSel := SSv1.GasSel.custom, prepare2 := none,
        parseOk := true, sign := none, submitOk := true, polls := [] }
      scenarioTx2 = ([Ev.skipStep "t2"], Ctl.next) ∧
    SSv2.processStep 5 "ethereum"
      { waitPolls := [], gasAvailable := false, gasSel := SSv1.GasSel.custom,
        prepare := none, sign := none, submitOk := true, polls := [] }
      none scenarioTx2 = (none, [], Ctl.next) ∧
    Yields.processStep skEnv 3 { skTx with unsignedTransaction := none } =
      (3, [Ev.stepLog "s1", Ev.noPayload "s1"], Ctl.next) :=
  ⟨C2_skip_semantics.1 (scenarioEnv 1) none scenarioTx2 rfl,
   C2_skip_semantics.2.1 _ scenarioTx2 rfl,
   C2_skip_semantics.2.2.1 5 "ethereum" _ none scenarioTx2 rfl,
   C2_skip_semantics.2.2.2 skEnv 3 _ rfl rfl⟩

/-- Preparation-call events of a trace. -/
def isPrepareAttemptEv : Ev → Bool
  | Ev.prepareAttempt _ _ => true
  | _ => false

/-- Retry-delay events of a trace (the fixed 1000 ms sleep after a failed
preparation attempt). -/
def isRetryDelayEv : Ev → Bool
  | Ev.retryDelay _ => true
  | _ => false

/-- The preparation loop never makes more attempts than its fuel. -/
theorem prepareLoop_attempts_le (id : String)
    (prepare : Nat → Option SSv1.Unsigned) :
    ∀ (fuel k : Nat),
      (SSv1.prepareLoop id prepare k fuel).2.countP isPrepareAttemptEv ≤
        fuel := by
  intro fuel
  induction fuel with
  | zero => intro k; simp [SSv1.prepareLoop]
  | succ fuel ih =>
    intro k
    cases hp : prepare k with
    | some u =>
      simp [SSv1.prepareLoop, hp, List.countP_cons, isPrepareAttemptEv]
    | none =>
      simp only [SSv1.prepareLoop, hp, List.countP_cons]
      have := ih (k + 1)
      simp [isPrepareAttemptEv]
      omega

/-- C5: preparation of a non-skipped, non-abandoned step is attempted at
most 3 times (the loop bound), each failed attempt is followed by the fixed
1000 ms delay; the first successful attempt stops the loop and the step
proceeds with that payload; and when all 3 attempts fail the run aborts at
that step — the trace is the same whatever steps follow, no signing or
submission of the step happens, and the control flow is a halt. -/
theorem C5_prepare_retry :
    (∀ (id : String) (prepare : Nat → Option SSv1.Unsigned) (k : Nat),
      (SSv1.prepareLoop id prepare k 3).2.countP isPrepareAttemptEv ≤ 3) ∧
    (∀ (id : String) (prepare : Nat → Option SSv1.Unsigned) (j : Nat)
        (u : SSv1.Unsigned), j < 3 → prepare j = some u →
      (∀ i, i < j → prepare i = none) →
      (SSv1.prepareLoop id prepare 0 3).1 = some u ∧
      (SSv1.prepareLoop id prepare 0 3).2.countP isPrepareAttemptEv = j + 1 ∧
      (SSv1.prepareLoop id prepare 0 3).2.countP isRetryDelayEv = j) ∧
    (∀ (env : Nat → SSv1.StepEnv) (ln : Option String) (tx : SSv1.Tx)
        (rest : List SSv1.Tx), tx.status ≠ "SKIPPED" →
      ¬((env 0).customisable = true ∧ (env 0).gasSel = SSv1.GasSel.custom) →
      (∀ i, i < 3 → (env 0).prepare i = none) →
      SSv1.run env 0 ln (tx :: rest) = SSv1.run env 0 ln [tx] ∧
      (SSv1.run env 0 ln (tx :: rest)).2 = Ctl.halt ∧
      Ev.sign tx.id ∉ (SSv1.run env 0 ln (tx :: rest)).1 ∧
      Ev.submit tx.id ∉ (SSv1.run env 0 ln (tx :: rest)).1) := by
  refine ⟨?_, ?_, ?_⟩
  · intro id prepare k
    exact prepareLoop_attempts_le id prepare 3 k
  · intro id prepare j u hj hs hfail
    interval_cases j
    · simp [SSv1.prepareLoop, hs, isPrepareAttemptEv, isRetryDelayEv]
    · have h0 : prepare 0 = none := hfail 0 (by omega)
      simp [SSv1.prepareLoop, h0, hs, List.countP_cons, isPrepareAttemptEv,
        isRetryDelayEv]
    · have h0 : prepare 0 = none := hfail 0 (by omega)
      have h1 : prepare 1 = none := hfail 1 (by omega)
      simp [SSv1.prepareLoop, h0, h1, hs, List.countP_cons, isPrepareAttemptEv,
        isRetryDelayEv]
  · intro env ln tx rest hsk hgas hfail
    have h0 : (env 0).prepare 0 = none := hfail 0 (by omega)
    have h1 : (env 0).prepare 1 = none := hfail 1 (by omega)
    have h2 : (env 0).prepare 2 = none := hfail 2 (by omega)
    have hstep : (SSv1.processStep (env 0) ln tx).2.2 = Ctl.halt := by
      simp only [SSv1.processStep, if_neg hsk, if_neg hgas]
      simp [SSv1.prepareLoop, h0, h1, h2]
    constructor
    · simp only [SSv1.run]
      rw [hstep]
    constructor
    · simp only [SSv1.run]
      rw [hstep]
    · constructor <;>
      · simp only [SSv1.run]
        rw [hstep]
        cases ln with
        | none =>
          simp only [SSv1.processStep, if_neg hsk, if_neg hgas]
          simp [SSv1.prepareLoop, h0, h1, h2]
        | some n =>
          simp only [SSv1.processStep, if_neg hsk, if_neg hgas]
          by_cases hn : n = tx.network <;>
            simp [SSv1.prepareLoop, h0, h1, h2, hn]

/-- Environment whose preparation fails twice, then succeeds. -/
def prepEnvC5 : Nat → Option SSv1.Unsigned := fun i =>
  if i = 2 then some { network := "ethereum", unsignedTransaction := "p" }
  else none

/-- Environment whose preparation always fails. -/
def failEnvC5 : Nat → SSv1.StepEnv := fun _ =>
  { customisable := false, gasSel := SSv1.GasSel.mode "average",
    prepare := fun _ => none, sign := some "signed", submitOk := true,
    polls := [some "CONFIRMED"] }

/-- Witness for C5: the bound at a concrete loop, a success on the third
attempt stopping the loop, and an always-failing preparation aborting a
two-step run at the first step. -/
theorem C5_prepare_retry_witness :
    (SSv1.prepareLoop "t1" prepEnvC5 0 3).2.countP isPrepareAttemptEv ≤ 3 ∧
    (SSv1.prepareLoop "t1" prepEnvC5 0 3).1 =
      some { network := "ethereum", unsignedTransaction := "p" } ∧
    (SSv1.run failEnvC5 0 none [scenarioTx1, scenarioTx3]).2 = Ctl.halt ∧
    Ev.sign "t1" ∉ (SSv1.run failEnvC5 0 none [scenarioTx1, scenarioTx3]).1 :=
  ⟨C5_prepare_retry.1 "t1" prepEnvC5 0,
   (C5_prepare_retry.2.1 "t1" prepEnvC5 2 _ (by decide) rfl
     (by intro i hi; interval_cases i <;> rfl)).1,
   (C5_prepare_retry.2.2 failEnvC5 none scenarioTx1 [scenarioTx3]
     (by decide) (by decide) (fun i _ => rfl)).2.1,
   (C5_prepare_retry.2.2 failEnvC5 none scenarioTx1 [scenarioTx3]
     (by decide) (by decide) (fun i _ => rfl)).2.2.1⟩

/-- Confirmation-loop events of the first stake variant contain no
cross-chain wait. -/
theorem noWait_statusLoop1 (id : String) :
    ∀ (polls : List (Option String)) (k : Nat) (ms : Nat),
      Ev.waitCrossChain ms ∉ (SSv1.statusLoop id polls k).1 := by
  intro polls
  induction polls with
  | nil => intro k ms; simp [SSv1.statusLoop]
  | cons p rest ih =>
    intro k ms
    cases p with
    | none => simp [SSv1.statusLoop]; exact ih (k + 1) ms
    | some s =>
      by_cases hc : s = "CONFIRMED"
      · simp [SSv1.statusLoop, hc]
      · by_cases hf : s = "FAILED"
        · simp [SSv1.statusLoop, hc, hf]
        · simp [SSv1.statusLoop, hc, hf]
          exact ih (k + 1) ms

/-- Preparation-loop events contain no cross-chain wait. -/
theorem noWait_prepareLoop (id : String) (prepare : Nat → Option SSv1.Unsigned) :
    ∀ (fuel k ms : Nat),
      Ev.waitCrossChain ms ∉ (SSv1.prepareLoop id prepare k fuel).2 := by
  intro fuel
  induction fuel with
  | zero => intro k ms; simp [SSv1.prepareLoop]
  | succ fuel ih =>
    intro k ms
    cases hp : prepare k with
    | some u => simp [SSv1.prepareLoop, hp]
    | none =>
      simp [SSv1.prepareLoop, hp]
      exact ih (k + 1) ms

/-- Shape of a non-skipped step trace in the first stake variant: the
cross-chain wait block comes first, then the step log and the gas fetch,
then a tail free of wait events. -/
theorem ssv1_step_head (env : SSv1.StepEnv) (ln : Option String)
    (tx : SSv1.Tx) (hsk : tx.status ≠ "SKIPPED") :
    ∃ tail, (SSv1.processStep env ln tx).2.1 =
      (match ln with
       | some n => if n ≠ tx.network then [Ev.waitCrossChain 5000] else []
       | none => []) ++ (Ev.stepLog tx.id :: Ev.gasFetch tx.network :: tail) ∧
      ∀ ms, Ev.waitCrossChain ms ∉ tail := by
  simp only [SSv1.processStep, if_neg hsk]
  by_cases hgas : env.customisable = true ∧ env.gasSel = SSv1.GasSel.custom
  · rw [if_pos hgas]
    exact ⟨[Ev.gasCustom tx.id], by simp, by simp⟩
  · rw [if_neg hgas]
    cases hpr : (SSv1.prepareLoop tx.id env.prepare 0 3).1 with
    | none =>
      refine ⟨(SSv1.prepareLoop tx.id env.prepare 0 3).2, by simp, ?_⟩
      intro ms
      exact noWait_prepareLoop tx.id env.prepare 3 0 ms
    | some u =>
      cases hsg : env.sign with
      | none =>
        refine ⟨(SSv1.prepareLoop tx.id env.prepare 0 3).2 ++
          [Ev.prepared tx.id, Ev.sign tx.id], by simp, ?_⟩
        intro ms
        simp
        exact noWait_prepareLoop tx.id env.prepare 3 0 ms
      | some sg =>
        by_cases hsub : env.submitOk = false
        · refine ⟨(SSv1.prepareLoop tx.id env.prepare 0 3).2 ++
            [Ev.prepared tx.id, Ev.sign tx.id, Ev.submit tx.id],
            by simp [hsub], ?_⟩
          intro ms
          simp
          exact noWait_prepareLoop tx.id env.prepare 3 0 ms
        · refine ⟨(SSv1.prepareLoop tx.id env.prepare 0 3).2 ++
            (Ev.prepared tx.id :: Ev.sign tx.id :: Ev.submit tx.id ::
              (SSv1.statusLoop tx.id env.polls 0).1),
            by simp [hsub], ?_⟩
          intro ms
          simp
          exact ⟨noWait_prepareLoop tx.id env.prepare 3 0 ms,
            noWait_statusLoop1 tx.id env.polls 0 ms⟩

/-- A completed cross-chain wait loop ends with the locked-available event,
preceded only by balance polls. -/
theorem waitLoop_next_split (amt : Int) :
    ∀ polls : List (Option Int),
      (SSv2.waitLoop amt polls).2 = Ctl.next →
      ∃ pre, (SSv2.waitLoop amt polls).1 = pre ++ [Ev.lockedAvailable] ∧
        ∀ e ∈ pre, ∃ a, e = Ev.balancePoll a := by
  intro polls
  induction polls with
  | nil => intro h; simp [SSv2.waitLoop] at h
  | cons p rest ih =>
    intro h
    cases p with
    | none => simp [SSv2.waitLoop] at h
    | some a =>
      by_cases hge : amt ≤ a
      · refine ⟨[Ev.balancePoll a], ?_, ?_⟩
        · simp [SSv2.waitLoop, hge]
        · simp
      · simp only [SSv2.waitLoop, if_neg hge] at h ⊢
        obtain ⟨pre, hpre, hall⟩ := ih h
        refine ⟨Ev.balancePoll a :: pre, by simp [hpre], ?_⟩
        intro e he
        rcases List.mem_cons.mp he with he | he
        · exact ⟨a, he⟩
        · exact hall e he

/-- Wait-loop events are balance polls or the completion event. -/
theorem waitLoop_evs (amt : Int) :
    ∀ polls : List (Option Int), ∀ e ∈ (SSv2.waitLoop amt polls).1,
      (∃ a, e = Ev.balancePoll a) ∨ e = Ev.lockedAvailable := by
  intro polls
  induction polls with
  | nil => intro e he; simp [SSv2.waitLoop] at he
  | cons p rest ih =>
    intro e he
    cases p with
    | none => simp [SSv2.waitLoop] at he
    | some a =>
      by_cases hge : amt ≤ a
      · simp [SSv2.waitLoop, hge] at he
        rcases he with he | he
        · exact Or.inl ⟨a, he⟩
        · exact Or.inr he
      · simp only [SSv2.waitLoop, if_neg hge, List.mem_cons] at he
        rcases he with he | he
        · exact Or.inl ⟨a, he⟩
        · exact ih e he

/-- Confirmation-loop events of the second stake variant contain no
balance-wait events. -/
theorem noBalance_statusLoop2 (id : String) :
    ∀ (polls : List (Option String)) (k : Nat),
      (Ev.lockedAvailable ∉ (SSv2.statusLoop id polls k).1) ∧
      (∀ a, Ev.balancePoll a ∉ (SSv2.statusLoop id polls k).1) := by
  intro polls
  induction polls with
  | nil => intro k; simp [SSv2.statusLoop]
  | cons p rest ih =>
    intro k
    cases p with
    | none => simp [SSv2.statusLoop]
    | some s =>
      by_cases hc : s = "CONFIRMED"
      · simp [SSv2.statusLoop, hc]
      · by_cases hf : s = "FAILED"
        · simp [SSv2.statusLoop, hc, hf]
        · simp [SSv2.statusLoop, hc, hf]
          exact ⟨(ih (k + 1)).1, fun a => (ih (k + 1)).2 a⟩

/-- Shape of a non-skipped cross-network step trace in the second stake
variant: when the wait loop completes the rest of the step follows it, and
when it does not complete the step trace is the wait trace alone. -/
theorem ssv2_step_differ (amt : Int) (base : String) (env : SSv2.StepEnv)
    (n : String) (tx : SSv1.Tx) (hsk : tx.status ≠ "SKIPPED")
    (hn : n ≠ tx.network) :
    ((SSv2.waitLoop amt env.waitPolls).2 = Ctl.next →
      ∃ tail, (SSv2.processStep amt base env (some n) tx).2.1 =
        (SSv2.waitLoop amt env.waitPolls).1 ++
          (Ev.stepLog tx.id :: Ev.gasFetch base :: tail)) ∧
    ((SSv2.waitLoop amt env.waitPolls).2 ≠ Ctl.next →
      (SSv2.processStep amt base env (some n) tx).2.1 =
        (SSv2.waitLoop amt env.waitPolls).1) := by
  simp only [SSv2.processStep, if_neg hsk, if_pos hn]
  constructor
  · intro hw2
    rw [hw2]
    by_cases hgas : env.gasAvailable = true ∧ env.gasSel = SSv1.GasSel.custom
    · rw [if_pos hgas]
      exact ⟨[Ev.gasCustom tx.id], by simp⟩
    · rw [if_neg hgas]
      cases hpr : env.prepare with
      | none => exact ⟨[Ev.prepareAttempt tx.id 0], by simp⟩
      | some u =>
        cases hsg : env.sign with
        | none =>
          exact ⟨[Ev.prepareAttempt tx.id 0, Ev.prepared tx.id, Ev.sign tx.id],
            by simp⟩
        | some sg =>
          by_cases hsub : env.submitOk = false
          · exact ⟨[Ev.prepareAttempt tx.id 0, Ev.prepared tx.id,
              Ev.sign tx.id, Ev.submit tx.id], by simp [hsub]⟩
          · exact ⟨Ev.prepareAttempt tx.id 0 :: Ev.prepared tx.id ::
              Ev.sign tx.id :: Ev.submit tx.id ::
              (SSv2.statusLoop tx.id env.polls 0).1, by simp [hsub]⟩
  · intro hw2
    cases hw : (SSv2.waitLoop amt env.waitPolls).2 with
    | next => exact absurd hw hw2
    | halt => rfl
    | spin => rfl

/-- When the previous step ran on the same network, the step trace of the
second stake variant is the one with no previous step at all. -/
theorem ssv2_trace_same_network (amt : Int) (base : String)
    (env : SSv2.StepEnv) (tx : SSv1.Tx) :
    (SSv2.processStep amt base env (some tx.network) tx).2.1 =
    (SSv2.processStep amt base env none tx).2.1 := by
  by_cases hsk : tx.status = "SKIPPED"
  · simp [SSv2.processStep, hsk]
  · simp only [SSv2.processStep, if_neg hsk]
    have hne : ¬ (tx.network ≠ tx.network) := by simp
    rw [if_neg hne]
    by_cases hgas : env.gasAvailable = true ∧ env.gasSel = SSv1.GasSel.custom
    · simp [hgas]
    · simp only [hgas, if_false, reduceIte]
      cases env.prepare with
      | none => rfl
      | some u =>
        cases env.sign with
        | none => rfl
        | some sg =>
          by_cases hsub : env.submitOk = false
          · simp [hsub]
          · simp [hsub]

/-- With no previously submitted step, the step trace of the second stake
variant contains no balance-wait events. -/
theorem ssv2_step_nowait_none (amt : Int) (base : String) (env : SSv2.StepEnv)
    (tx : SSv1.Tx) :
    Ev.lockedAvailable ∉ (SSv2.processStep amt base env none tx).2.1 ∧
    ∀ a, Ev.balancePoll a ∉ (SSv2.processStep amt base env none tx).2.1 := by
  by_cases hsk : tx.status = "SKIPPED"
  · simp [SSv2.processStep, hsk]
  · simp only [SSv2.processStep, if_neg hsk]
    by_cases hgas : env.gasAvailable = true ∧ env.gasSel = SSv1.GasSel.custom
    · rw [if_pos hgas]
      simp
    · rw [if_neg hgas]
      cases hpre : env.prepare with
      | none => simp
      | some u =>
        cases hsg : env.sign with
        | none => simp
        | some sg =>
          by_cases hsub : env.submitOk = false
          · simp [hsub]
          · constructor
            · simp [hsub]
              exact (noBalance_statusLoop2 tx.id env.polls 0).1
            · intro a
              simp [hsub]
              exact (noBalance_statusLoop2 tx.id env.polls 0).2 a

/-- With no previous step or a previous step on the same network, the step
trace of the second stake variant contains no balance-wait events. -/
theorem ssv2_step_nowait (amt : Int) (base : String) (env : SSv2.StepEnv)
    (ln : Option String) (tx : SSv1.Tx)
    (h : ln = none ∨ ln = some tx.network) :
    Ev.lockedAvailable ∉ (SSv2.processStep amt base env ln tx).2.1 ∧
    ∀ a, Ev.balancePoll a ∉ (SSv2.processStep amt base env ln tx).2.1 := by
  rcases h with h | h <;> subst h
  · exact ssv2_step_nowait_none amt base env tx
  · rw [ssv2_trace_same_network amt base env tx]
    exact ssv2_step_nowait_none amt base env tx

/-- C6: in the first stake variant, a non-skipped step whose declared
network differs from the previously submitted network starts with the fixed
5000 ms cross-chain wait before its log, gas fetch, preparation and
signing, and no wait occurs later in the step; with no previous step or one
on the same network, no wait event occurs at all.  In the second stake
variant, whenever such a step reaches its preparation or signing call, the
locked-balance wait completed earlier in the trace, preceded only by
balance polls; and with no previous step or one on the same network, no
balance-wait event occurs. -/
theorem C6_cross_chain_gate :
    (∀ (env : SSv1.StepEnv) (n : String) (tx : SSv1.Tx),
      tx.status ≠ "SKIPPED" → n ≠ tx.network →
      ∃ rest, (SSv1.processStep env (some n) tx).2.1 =
          Ev.waitCrossChain 5000 :: rest ∧
        ∀ ms, Ev.waitCrossChain ms ∉ rest.drop 2) ∧
    (∀ (env : SSv1.StepEnv) (ln : Option String) (tx : SSv1.Tx),
      ln = none ∨ ln = some tx.network →
      ∀ ms, Ev.waitCrossChain ms ∉ (SSv1.processStep env ln tx).2.1) ∧
    (∀ (amt : Int) (base : String) (env : SSv2.StepEnv) (n : String)
        (tx : SSv1.Tx), tx.status ≠ "SKIPPED" → n ≠ tx.network →
      (Ev.prepareAttempt tx.id 0 ∈ (SSv2.processStep amt base env (some n) tx).2.1 ∨
       Ev.sign tx.id ∈ (SSv2.processStep amt base env (some n) tx).2.1) →
      ∃ pre post, (SSv2.processStep amt base env (some n) tx).2.1 =
          pre ++ Ev.lockedAvailable :: post ∧
        ∀ e ∈ pre, ∃ a, e = Ev.balancePoll a) ∧
    (∀ (amt : Int) (base : String) (env : SSv2.StepEnv) (ln : Option String)
        (tx : SSv1.Tx), ln = none ∨ ln = some tx.network →
      Ev.lockedAvailable ∉ (SSv2.processStep amt base env ln tx).2.1 ∧
      ∀ a, Ev.balancePoll a ∉ (SSv2.processStep amt base env ln tx).2.1) := by
  refine ⟨?_, ?_, ?_, fun amt base env ln tx h => ssv2_step_nowait amt base env ln tx h⟩
  · intro env n tx hsk hn
    obtain ⟨tail, hevs, htail⟩ := ssv1_step_head env (some n) tx hsk
    refine ⟨Ev.stepLog tx.id :: Ev.gasFetch tx.network :: tail, ?_, ?_⟩
    · rw [hevs]
      simp [hn]
    · intro ms
      simpa using htail ms
  · intro env ln tx h ms
    by_cases hsk : tx.status = "SKIPPED"
    · simp [SSv1.processStep, hsk]
    · obtain ⟨tail, hevs, htail⟩ := ssv1_step_head env ln tx hsk
      rw [hevs]
      rcases h with h | h <;> subst h
      · simpa using htail ms
      · simpa using htail ms
  · intro amt base env n tx hsk hn hmem
    cases hw : (SSv2.waitLoop amt env.waitPolls).2 with
    | next =>
      obtain ⟨tail, hevs⟩ := (ssv2_step_differ amt base env n tx hsk hn).1 hw
      obtain ⟨pre, hpre, hall⟩ := waitLoop_next_split amt env.waitPolls hw
      refine ⟨pre, Ev.stepLog tx.id :: Ev.gasFetch base :: tail, ?_, hall⟩
      rw [hevs, hpre]
      simp
    | halt =>
      exfalso
      have hevs := (ssv2_step_differ amt base env n tx hsk hn).2 (by rw [hw]; simp)
      rw [hevs] at hmem
      rcases hmem with hmem | hmem <;>
      · rcases waitLoop_evs amt env.waitPolls _ hmem with ⟨a, ha⟩ | ha <;> simp at ha
    | spin =>
      exfalso
      have hevs := (ssv2_step_differ amt base env n tx hsk hn).2 (by rw [hw]; simp)
      rw [hevs] at hmem
      rcases hmem with hmem | hmem <;>
      · rcases waitLoop_evs amt env.waitPolls _ hmem with ⟨a, ha⟩ | ha <;> simp at ha

/-- Environment for the C6 witness: a balance wait that completes on the
second poll, then a clean prepare, sign, submit and confirmation. -/
def c6Env2 : SSv2.StepEnv :=
  { waitPolls := [some 3, some 10], gasAvailable := false,
    gasSel := SSv1.GasSel.mode "average",
    prepare := some { network := "polygon", unsignedTransaction := "p" },
    sign := some "signed", submitOk := true, polls := [some "CONFIRMED"] }

/-- Witness for C6 at concrete cross-network and same-network steps in both
stake variants. -/
theorem C6_cross_chain_gate_witness :
    (∃ rest, (SSv1.processStep (scenarioEnv 2) (some "ethereum") scenarioTx3).2.1 =
        Ev.waitCrossChain 5000 :: rest ∧
      ∀ ms, Ev.waitCrossChain ms ∉ rest.drop 2) ∧
    (∀ ms, Ev.waitCrossChain ms ∉
      (SSv1.processStep (scenarioEnv 0) none scenarioTx1).2.1) ∧
    (∃ pre post, (SSv2.processStep 5 "ethereum" c6Env2 (some "ethereum") scenarioTx3).2.1 =
        pre ++ Ev.lockedAvailable :: post ∧
      ∀ e ∈ pre, ∃ a, e = Ev.balancePoll a) ∧
    (Ev.lockedAvailable ∉
      (SSv2.processStep 5 "ethereum" c6Env2 none scenarioTx1).2.1) :=
  ⟨C6_cross_chain_gate.1 (scenarioEnv 2) "ethereum" scenarioTx3 (by decide) (by decide),
   C6_cross_chain_gate.2.1 (scenarioEnv 0) none scenarioTx1 (Or.inl rfl),
   C6_cross_chain_gate.2.2.1 5 "ethereum" c6Env2 "ethereum" scenarioTx3
     (by decide) (by decide) (Or.inl (by decide)),
   (C6_cross_chain_gate.2.2.2 5 "ethereum" c6Env2 none scenarioTx1 (Or.inl rfl)).1⟩

/-- A settled yields step reduces to its skip log and stored-info
display. -/
theorem yields_settled_step (env : Yields.StepEnv) (off : Nat) (tx : Yields.Tx)
    (h : Yields.settled tx.status) :
    Yields.processStep env off tx =
      (off, Ev.alreadySettled tx.id tx.status ::
        displayInfo tx.hash tx.explorerUrl, Ctl.next) := by
  simp [Yields.processStep, h]

/-- Info display emits no signing, submission or nonce events. -/
theorem displayInfo_members (h u : Option String) :
    (∀ id, Ev.sign id ∉ displayInfo h u) ∧
    (∀ id, Ev.submit id ∉ displayInfo h u) ∧
    (∀ n, Ev.useNonce n ∉ displayInfo h u) := by
  cases h <;> cases u <;> simp [displayInfo]

/-- A settled perps step reduces to nothing (confirmed) or its id line
(broadcasted). -/
theorem perps_settled_step (w : Perps.Wallet) (env : Perps.StepEnv)
    (tx : Perps.Tx)
    (h : tx.status = "CONFIRMED" ∨ tx.status = "BROADCASTED") :
    Perps.processStep w env tx = ([], Ctl.next) ∨
    Perps.processStep w env tx = ([Ev.stepLog tx.id], Ctl.next) := by
  by_cases hc : tx.status = "CONFIRMED"
  · left
    simp [Perps.processStep, hc]
  · right
    have hb : tx.status = "BROADCASTED" := by
      rcases h with h | h
      · exact absurd h hc
      · exact h
    simp [Perps.processStep, hc, hb]

/-- A yields run over only settled steps issues no sign or submit call. -/
theorem yields_settled_run (env : Nat → Yields.StepEnv) :
    ∀ (txs : List Yields.Tx) (i off : Nat),
      (∀ tx ∈ txs, Yields.settled tx.status) →
      ∀ id, Ev.sign id ∉ (Yields.run env i off txs).1 ∧
        Ev.submit id ∉ (Yields.run env i off txs).1 := by
  intro txs
  induction txs with
  | nil =>
    intro i off hall id
    simp [Yields.run]
  | cons tx rest ih =>
    intro i off hall id
    have hst := hall tx (List.mem_cons_self tx rest)
    have hrest : ∀ t ∈ rest, Yields.settled t.status :=
      fun t ht => hall t (List.mem_cons_of_mem tx ht)
    simp only [Yields.run]
    rw [yields_settled_step (env i) off tx hst]
    simp only [List.cons_append, List.mem_cons, List.mem_append]
    constructor
    · push_neg
      refine ⟨by simp, ?_, ?_⟩
      · intro hmem
        exact (displayInfo_members tx.hash tx.explorerUrl).1 id hmem
      · intro hmem
        exact (ih (i + 1) off hrest id).1 hmem
    · push_neg
      refine ⟨by simp, ?_, ?_⟩
      · intro hmem
        exact (displayInfo_members tx.hash tx.explorerUrl).2.1 id hmem
      · intro hmem
        exact (ih (i + 1) off hrest id).2 hmem

/-- A perps run over only settled steps issues no sign or submit call. -/
theorem perps_settled_run (w : Perps.Wallet) (env : Nat → Perps.StepEnv) :
    ∀ (txs : List Perps.Tx) (i : Nat),
      (∀ tx ∈ txs, tx.status = "CONFIRMED" ∨ tx.status = "BROADCASTED") →
      ∀ id, Ev.sign id ∉ (Perps.run w env i txs).1 ∧
        Ev.submit id ∉ (Perps.run w env i txs).1 := by
  intro txs
  induction txs with
  | nil =>
    intro i hall id
    simp [Perps.run]
  | cons tx rest ih =>
    intro i hall id
    have hst := hall tx (List.mem_cons_self tx rest)
    have hrest : ∀ t ∈ rest, t.status = "CONFIRMED" ∨ t.status = "BROADCASTED" :=
      fun t ht => hall t (List.mem_cons_of_mem tx ht)
    simp only [Perps.run]
    rcases perps_settled_step w (env i) tx hst with he | he
    · rw [he]
      simp only [List.nil_append]
      exact ih (i + 1) hrest id
    · rw [he]
      simp only [List.cons_append, List.nil_append, List.mem_cons]
      constructor
      · intro hmem
        rcases hmem with hmem | hmem
        · simp at hmem
        · exact (ih (i + 1) hrest id).1 hmem
      · intro hmem
        rcases hmem with hmem | hmem
        · simp at hmem
        · exact (ih (i + 1) hrest id).2 hmem

/-- C1 (amended): in both transaction pipelines a step that is `CONFIRMED`
or `BROADCASTED` at the start of its iteration is never signed and never
submitted and the loop moves on; in `signAndSubmitTransactions` its stored
hash and explorer link are displayed again, while `processTransactions`
skips it without displaying any hash or link.  Reprocessing a list whose
steps are all settled therefore issues no sign or submit call at all. -/
theorem C1_idempotent_resume :
    (∀ (env : Yields.StepEnv) (off : Nat) (tx : Yields.Tx),
      Yields.settled tx.status →
      (Yields.processStep env off tx).1 = off ∧
      (Yields.processStep env off tx).2.2 = Ctl.next ∧
      (∀ id, Ev.sign id ∉ (Yields.processStep env off tx).2.1) ∧
      (∀ id, Ev.submit id ∉ (Yields.processStep env off tx).2.1) ∧
      (∀ hv, tx.hash = some hv →
        Ev.showHash hv ∈ (Yields.processStep env off tx).2.1) ∧
      (∀ uv, tx.explorerUrl = some uv →
        Ev.showLink uv ∈ (Yields.processStep env off tx).2.1)) ∧
    (∀ (w : Perps.Wallet) (env : Perps.StepEnv) (tx : Perps.Tx),
      tx.status = "CONFIRMED" ∨ tx.status = "BROADCASTED" →
      (Perps.processStep w env tx).2 = Ctl.next ∧
      (∀ id, Ev.sign id ∉ (Perps.processStep w env tx).1) ∧
      (∀ id, Ev.submit id ∉ (Perps.processStep w env tx).1) ∧
      (∀ hv, Ev.showHash hv ∉ (Perps.processStep w env tx).1) ∧
      (∀ uv, Ev.showLink uv ∉ (Perps.processStep w env tx).1)) ∧
    (∀ (env : Nat → Yields.StepEnv) (txs : List Yields.Tx),
      (∀ tx ∈ txs, Yields.settled tx.status) →
      ∀ id, Ev.sign id ∉ (Yields.signAndSubmitTransactions env txs).1 ∧
        Ev.submit id ∉ (Yields.signAndSubmitTransactions env txs).1) ∧
    (∀ (w : Perps.Wallet) (env : Nat → Perps.StepEnv) (txs : List Perps.Tx),
      (∀ tx ∈ txs, tx.status = "CONFIRMED" ∨ tx.status = "BROADCASTED") →
      ∀ id, Ev.sign id ∉ (Perps.processTransactions w env txs).1 ∧
        Ev.submit id ∉ (Perps.processTransactions w env txs).1) := by
  refine ⟨?_, ?_, ?_, ?_⟩
  · intro env off tx h
    rw [yields_settled_step env off tx h]
    refine ⟨rfl, rfl, ?_, ?_, ?_, ?_⟩
    · intro id
      simp only [List.mem_cons]
      intro hmem
      rcases hmem with hmem | hmem
      · simp at hmem
      · exact (displayInfo_members tx.hash tx.explorerUrl).1 id hmem
    · intro id
      simp only [List.mem_cons]
      intro hmem
      rcases hmem with hmem | hmem
      · simp at hmem
      · exact (displayInfo_members tx.hash tx.explorerUrl).2.1 id hmem
    · intro hv hhv
      simp [displayInfo, hhv]
    · intro uv huv
      cases hh : tx.hash <;> simp [displayInfo, huv, hh]
  · intro w env tx h
    have hc : (Perps.processStep w env tx).2 = Ctl.next := by
      rcases perps_settled_step w env tx h with he | he <;> rw [he]
    refine ⟨hc, ?_, ?_, ?_, ?_⟩ <;>
    · intro x
      rcases perps_settled_step w env tx h with he | he <;> rw [he] <;> simp
  · intro env txs hall id
    exact yields_settled_run env txs 0 0 hall id
  · intro w env txs hall id
    exact perps_settled_run w env txs 0 hall id

/-- Confirmed perps step carrying a recorded hash and link. -/
def settledPerpTx : Perps.Tx :=
  { id := "c1", network := "ethereum", ty := "order", status := "CONFIRMED",
    signingFormat := none, signablePayload := none,
    transactionHash := some "0xabc", link := some "ex" }

/-- Concrete wallet for the C1 perps runs. -/
def perpWalletC1 : Perps.Wallet :=
  ⟨fun _ _ _ => "typedsig", fun _ => "rawsig"⟩

/-- Benign submit environment for the C1 perps runs. -/
def perpEnvC1 : Perps.StepEnv :=
  { submit := some { status := "CONFIRMED", transactionHash := none, link := none } }

/-- Counterexample to C1 as stated: `processTransactions` skips a
`CONFIRMED` step silently — its recorded hash and explorer link are not
displayed, contrary to the claim. -/
theorem C1_settled_display_counterexample :
    settledPerpTx.status = "CONFIRMED" ∧
    settledPerpTx.transactionHash = some "0xabc" ∧
    settledPerpTx.link = some "ex" ∧
    (Perps.processStep perpWalletC1 perpEnvC1 settledPerpTx).1 = [] ∧
    Ev.showHash "0xabc" ∉ (Perps.processStep perpWalletC1 perpEnvC1 settledPerpTx).1 ∧
    Ev.showLink "ex" ∉ (Perps.processStep perpWalletC1 perpEnvC1 settledPerpTx).1 := by
  exact ⟨rfl, rfl, rfl, rfl, by decide, by decide⟩

/-- Broadcasted yields step carrying a recorded hash and link. -/
def settledYTx : Yields.Tx :=
  { id := "y1", network := "ethereum", status := "BROADCASTED", ty := "stake",
    unsignedTransaction := some { nonce := some 4 }, hash := some "0xdef",
    explorerUrl := some "url" }

/-- Witness for C1 at concrete settled steps and one-step runs of both
pipelines. -/
theorem C1_idempotent_resume_witness :
    (Yields.processStep skEnv 2 settledYTx).1 = 2 ∧
    Ev.sign "y1" ∉ (Yields.processStep skEnv 2 settledYTx).2.1 ∧
    Ev.showHash "0xdef" ∈ (Yields.processStep skEnv 2 settledYTx).2.1 ∧
    Ev.sign "c1" ∉ (Perps.processStep perpWalletC1 perpEnvC1 settledPerpTx).1 ∧
    Ev.sign "y1" ∉
      (Yields.signAndSubmitTransactions (fun _ => skEnv) [settledYTx]).1 ∧
    Ev.submit "c1" ∉
      (Perps.processTransactions perpWalletC1 (fun _ => perpEnvC1)
        [settledPerpTx]).1 :=
  ⟨(C1_idempotent_resume.1 skEnv 2 settledYTx (Or.inr rfl)).1,
   (C1_idempotent_resume.1 skEnv 2 settledYTx (Or.inr rfl)).2.2.1 "y1",
   (C1_idempotent_resume.1 skEnv 2 settledYTx (Or.inr rfl)).2.2.2.2.1 "0xdef" rfl,
   (C1_idempotent_resume.2.1 perpWalletC1 perpEnvC1 settledPerpTx (Or.inl rfl)).2.1 "c1",
   (C1_idempotent_resume.2.2.1 (fun _ => skEnv) [settledYTx]
     (by intro t ht; simp at ht; subst ht; exact Or.inr rfl) "y1").1,
   (C1_idempotent_resume.2.2.2 perpWalletC1 (fun _ => perpEnvC1) [settledPerpTx]
     (by intro t ht; simp at ht; subst ht; exact Or.inl rfl) "c1").2⟩

/-- Poll responses that always answer `FAILED`. -/
def failedPolls : Nat → Option Yields.TxInfo := fun _ =>
  some { status := "FAILED", hash := none, explorerUrl := none }

/-- First created step of the C4 run, whose polls always fail. -/
def c4Tx1 : Yields.Tx :=
  { id := "f1", network := "ethereum", status := "CREATED", ty := "stake",
    unsignedTransaction := some { nonce := none }, hash := none,
    explorerUrl := none }

/-- Second created step of the C4 run. -/
def c4Tx2 : Yields.Tx :=
  { id := "f2", network := "ethereum", status := "CREATED", ty := "claim",
    unsignedTransaction := some { nonce := none }, hash := none,
    explorerUrl := none }

/-- Environment for the C4 run: the first step polls `FAILED` forever, the
second confirms at once. -/
def c4Env : Nat → Yields.StepEnv := fun i =>
  { signOk := true,
    submit := some { status := "SIGNED", hash := none, explorerUrl := none },
    polls := if i = 0 then failedPolls
      else fun _ => some { status := "CONFIRMED", hash := none, explorerUrl := none } }

/-- Status-poll events of a trace. -/
def isPollEv : Ev → Bool
  | Ev.poll _ _ => true
  | _ => false

/-- Failure-log events of a trace. -/
def isFailedLogEv : Ev → Bool
  | Ev.failedLog _ => true
  | _ => false

/-- C4 is broken by a slip in the source: the `throw` on a `FAILED` poll
sits inside the same `try` whose `catch` swallows request errors, so on a
transaction whose polls return `FAILED` the loop never stops early — it
logs the failure on each of the 60 polls, exhausts the bound, prints the
timeout warning and the pipeline continues to the next step instead of
raising. -/
theorem C4_failed_poll_swallowed :
    (Yields.confirmLoop failedPolls "f1" 0 Yields.maxAttempts).1 = false ∧
    (Yields.confirmLoop failedPolls "f1" 0 Yields.maxAttempts).2.countP
      isPollEv = 60 ∧
    (Yields.confirmLoop failedPolls "f1" 0 Yields.maxAttempts).2.countP
      isFailedLogEv = 60 ∧
    Ev.timeoutWarn "f1" ∈ (Yields.signAndSubmitTransactions c4Env [c4Tx1, c4Tx2]).1 ∧
    (Yields.signAndSubmitTransactions c4Env [c4Tx1, c4Tx2]).2 = Ctl.next ∧
    Ev.sign "f2" ∈ (Yields.signAndSubmitTransactions c4Env [c4Tx1, c4Tx2]).1 := by
  refine ⟨by decide, by decide, by decide, by decide, by decide, by decide⟩

/-- Logged nonces distribute over trace concatenation. -/
theorem usedNonces_append :
    ∀ a b : List Ev, Yields.usedNonces (a ++ b) =
      Yields.usedNonces a ++ Yields.usedNonces b := by
  intro a b
  induction a with
  | nil => simp [Yields.usedNonces]
  | cons e rest ih =>
    cases e <;> simp [Yields.usedNonces, ih]

/-- Info display logs no nonce. -/
theorem usedNonces_displayInfo (h u : Option String) :
    Yields.usedNonces (displayInfo h u) = [] := by
  cases h <;> cases u <;> simp [displayInfo, Yields.usedNonces]

/-- The confirmation loop logs no nonce. -/
theorem usedNonces_confirmLoop (polls : Nat → Option Yields.TxInfo)
    (id : String) :
    ∀ (fuel attempt : Nat),
      Yields.usedNonces (Yields.confirmLoop polls id attempt fuel).2 = [] := by
  intro fuel
  induction fuel with
  | zero => intro attempt; simp [Yields.confirmLoop, Yields.usedNonces]
  | succ fuel ih =>
    intro attempt
    cases hp : polls attempt with
    | none =>
      simp [Yields.confirmLoop, hp, Yields.usedNonces]
      exact ih (attempt + 1)
    | some info =>
      by_cases hc : info.status = "CONFIRMED"
      · simp [Yields.confirmLoop, hp, hc, Yields.usedNonces,
          usedNonces_displayInfo]
      · by_cases hf : info.status = "FAILED"
        · simp [Yields.confirmLoop, hp, hc, hf, Yields.usedNonces]
          exact ih (attempt + 1)
        · simp [Yields.confirmLoop, hp, hc, hf, Yields.usedNonces]
          exact ih (attempt + 1)

/-- The nonces a run logs are an initial segment of the nonce schedule:
the run stops early exactly when a step aborts, and every logged nonce is
its payload base plus the number of steps that reached signing before
it. -/
theorem run_nonces_prefix (env : Nat → Yields.StepEnv) :
    ∀ (txs : List Yields.Tx) (i off : Nat),
      ∃ t, Yields.usedNonces (Yields.run env i off txs).1 ++ t =
        Yields.nonceSchedule off txs := by
  intro txs
  induction txs with
  | nil =>
    intro i off
    exact ⟨[], by simp [Yields.run, Yields.usedNonces, Yields.nonceSchedule]⟩
  | cons tx rest ih =>
    intro i off
    by_cases hst : Yields.settled tx.status
    · simp only [Yields.run]
      rw [yields_settled_step (env i) off tx hst]
      simp only [Yields.nonceSchedule, hst, if_true, if_pos hst]
      obtain ⟨t, ht⟩ := ih (i + 1) off
      refine ⟨t, ?_⟩
      rw [usedNonces_append]
      simp only [Yields.usedNonces, usedNonces_displayInfo]
      simpa using ht
    · cases hp : tx.unsignedTransaction with
      | none =>
        simp only [Yields.run, Yields.processStep, if_neg hst, hp]
        simp only [Yields.nonceSchedule, if_neg hst, hp]
        obtain ⟨t, ht⟩ := ih (i + 1) off
        refine ⟨t, ?_⟩
        rw [usedNonces_append]
        simpa [Yields.usedNonces] using ht
      | some payload =>
        have hnonceEvs : Yields.usedNonces
            (match payload.nonce with
             | some b => [Ev.useNonce (b + (off : Int))]
             | none => ([] : List Ev)) =
            (match payload.nonce with
             | some b => [b + (off : Int)]
             | none => ([] : List Int)) := by
          cases payload.nonce <;> simp [Yields.usedNonces]
        by_cases hsig : (env i).signOk = false
        · simp only [Yields.run, Yields.processStep, if_neg hst, hp, hsig,
            if_true]
          refine ⟨Yields.nonceSchedule (off + 1) rest, ?_⟩
          simp only [Yields.nonceSchedule, if_neg hst, hp]
          rw [show (Ev.stepLog tx.id :: (match payload.nonce with
             | some b => [Ev.useNonce (b + (off : Int))]
             | none => ([] : List Ev)) ++ [Ev.sign tx.id]) =
             [Ev.stepLog tx.id] ++ ((match payload.nonce with
             | some b => [Ev.useNonce (b + (off : Int))]
             | none => ([] : List Ev)) ++ [Ev.sign tx.id]) from by simp]
          rw [usedNonces_append, usedNonces_append, hnonceEvs]
          cases payload.nonce <;> simp [Yields.usedNonces]
        · cases hsub : (env i).submit with
          | none =>
            simp only [Yields.run, Yields.processStep, if_neg hst, hp, hsub]
            rw [if_neg hsig]
            refine ⟨Yields.nonceSchedule (off + 1) rest, ?_⟩
            simp only [Yields.nonceSchedule, if_neg hst, hp]
            rw [show (Ev.stepLog tx.id :: (match payload.nonce with
               | some b => [Ev.useNonce (b + (off : Int))]
               | none => ([] : List Ev)) ++ [Ev.sign tx.id, Ev.submit tx.id]) =
               [Ev.stepLog tx.id] ++ ((match payload.nonce with
               | some b => [Ev.useNonce (b + (off : Int))]
               | none => ([] : List Ev)) ++ [Ev.sign tx.id, Ev.submit tx.id])
               from by simp]
            rw [usedNonces_append, usedNonces_append, hnonceEvs]
            cases payload.nonce <;> simp [Yields.usedNonces]
          | some res =>
            obtain ⟨t, ht⟩ := ih (i + 1) (off + 1)
            refine ⟨t, ?_⟩
            simp only [Yields.run, Yields.processStep, if_neg hst, hp, hsub]
            rw [if_neg hsig]
            simp only [Yields.nonceSchedule, if_neg hst, hp]
            rw [show (Ev.stepLog tx.id :: (match payload.nonce with
               | some b => [Ev.useNonce (b + (off : Int))]
               | none => ([] : List Ev)) ++ [Ev.sign tx.id, Ev.submit tx.id] ++
               displayInfo res.hash res.explorerUrl ++
               (if (Yields.confirmLoop (env i).polls tx.id 0 Yields.maxAttempts).1
                then (Yields.confirmLoop (env i).polls tx.id 0 Yields.maxAttempts).2
                else (Yields.confirmLoop (env i).polls tx.id 0 Yields.maxAttempts).2 ++
                  [Ev.timeoutWarn tx.id]) ++
               (Yields.run env (i + 1) (off + 1) rest).1) =
               [Ev.stepLog tx.id] ++ ((match payload.nonce with
               | some b => [Ev.useNonce (b + (off : Int))]
               | none => ([] : List Ev)) ++ ([Ev.sign tx.id, Ev.submit tx.id] ++
               (displayInfo res.hash res.explorerUrl ++
               ((if (Yields.confirmLoop (env i).polls tx.id 0 Yields.maxAttempts).1
                then (Yields.confirmLoop (env i).polls tx.id 0 Yields.maxAttempts).2
                else (Yields.confirmLoop (env i).polls tx.id 0 Yields.maxAttempts).2 ++
                  [Ev.timeoutWarn tx.id]) ++
               (Yields.run env (i + 1) (off + 1) rest).1)))) from by simp]
            rw [usedNonces_append, usedNonces_append, usedNonces_append,
              usedNonces_append, usedNonces_append, hnonceEvs,
              usedNonces_displayInfo]
            have htail : Yields.usedNonces
                (if (Yields.confirmLoop (env i).polls tx.id 0 Yields.maxAttempts).1
                 then (Yields.confirmLoop (env i).polls tx.id 0 Yields.maxAttempts).2
                 else (Yields.confirmLoop (env i).polls tx.id 0 Yields.maxAttempts).2 ++
                   [Ev.timeoutWarn tx.id]) = [] := by
              by_cases hcl : (Yields.confirmLoop (env i).polls tx.id 0
                  Yields.maxAttempts).1
              · simp [hcl, usedNonces_confirmLoop]
              · simp [hcl, usedNonces_append, usedNonces_confirmLoop,
                  Yields.usedNonces]
            rw [htail]
            cases payload.nonce <;>
              simp only [Yields.usedNonces, List.nil_append, List.cons_append,
                List.append_nil] <;>
              rw [← ht]

/-- Every scheduled nonce is some base nonce plus an offset at least the
starting offset. -/
theorem nonceSchedule_mem :
    ∀ (txs : List Yields.Tx) (off : Nat) (x : Int),
      x ∈ Yields.nonceSchedule off txs →
      ∃ b ∈ Yields.baseNonces txs, ∃ k : Nat, off ≤ k ∧ x = b + (k : Int) := by
  intro txs
  induction txs with
  | nil => intro off x hx; simp [Yields.nonceSchedule] at hx
  | cons tx rest ih =>
    intro off x hx
    by_cases hst : Yields.settled tx.status
    · simp only [Yields.nonceSchedule, if_pos hst] at hx
      simp only [Yields.baseNonces, if_pos hst]
      exact ih off x hx
    · cases hp : tx.unsignedTransaction with
      | none =>
        simp only [Yields.nonceSchedule, if_neg hst, hp] at hx
        simp only [Yields.baseNonces, if_neg hst, hp]
        exact ih off x hx
      | some payload =>
        cases hn : payload.nonce with
        | none =>
          simp only [Yields.nonceSchedule, if_neg hst, hp, hn] at hx
          simp only [Yields.baseNonces, if_neg hst, hp, hn]
          obtain ⟨b, hb, k, hk, hxk⟩ := ih (off + 1) x hx
          exact ⟨b, hb, k, by omega, hxk⟩
        | some b0 =>
          simp only [Yields.nonceSchedule, if_neg hst, hp, hn,
            List.mem_cons] at hx
          simp only [Yields.baseNonces, if_neg hst, hp, hn]
          rcases hx with hx | hx
          · exact ⟨b0, List.mem_cons_self b0 _, off, le_rfl, hx⟩
          · obtain ⟨b, hb, k, hk, hxk⟩ := ih (off + 1) x hx
            exact ⟨b, List.mem_cons_of_mem b0 hb, k, by omega, hxk⟩

/-- With non-decreasing base nonces the schedule is strictly increasing,
since each signing step bumps the offset by one. -/
theorem nonceSchedule_pairwise :
    ∀ (txs : List Yields.Tx) (off : Nat),
      List.Pairwise (fun a b : Int => a ≤ b) (Yields.baseNonces txs) →
      List.Pairwise (fun a b : Int => a < b) (Yields.nonceSchedule off txs) := by
  intro txs
  induction txs with
  | nil => intro off h; simp [Yields.nonceSchedule]
  | cons tx rest ih =>
    intro off h
    by_cases hst : Yields.settled tx.status
    · simp only [Yields.nonceSchedule, if_pos hst]
      simp only [Yields.baseNonces, if_pos hst] at h
      exact ih off h
    · cases hp : tx.unsignedTransaction with
      | none =>
        simp only [Yields.nonceSchedule, if_neg hst, hp]
        simp only [Yields.baseNonces, if_neg hst, hp] at h
        exact ih off h
      | some payload =>
        cases hn : payload.nonce with
        | none =>
          simp only [Yields.nonceSchedule, if_neg hst, hp, hn]
          simp only [Yields.baseNonces, if_neg hst, hp, hn] at h
          exact ih (off + 1) h
        | some b0 =>
          simp only [Yields.nonceSchedule, if_neg hst, hp, hn]
          simp only [Yields.baseNonces, if_neg hst, hp, hn] at h
          rw [List.pairwise_cons] at h ⊢
          obtain ⟨hb0, hrest⟩ := h
          refine ⟨?_, ih (off + 1) hrest⟩
          intro x hx
          obtain ⟨b, hb, k, hk, hxk⟩ := nonceSchedule_mem rest (off + 1) x hx
          have hle : b0 ≤ b := hb0 b hb
          have : (off : Int) < (k : Int) := by exact_mod_cast hk
          omega

/-- C7 (amended): the local nonce offset is incremented exactly once per
step that reaches the signing branch — settled steps and steps without an
unsigned payload consume no increment — and the nonce used for such a step
is its payload nonce plus the current offset.  Hence whenever the payload
base nonces of the signed steps are non-decreasing (in particular when the
server assigns them all the same base), the nonces actually used strictly
increase across the run. -/
theorem C7_nonce_monotonicity :
    (∀ (env : Yields.StepEnv) (off : Nat) (tx : Yields.Tx),
      (Yields.processStep env off tx).1 =
        off + (if Yields.settled tx.status ∨ tx.unsignedTransaction = none
          then 0 else 1)) ∧
    (∀ (env : Nat → Yields.StepEnv) (txs : List Yields.Tx),
      List.Pairwise (fun a b : Int => a ≤ b) (Yields.baseNonces txs) →
      List.Pairwise (fun a b : Int => a < b)
        (Yields.usedNonces (Yields.signAndSubmitTransactions env txs).1)) := by
  constructor
  · intro env off tx
    by_cases hst : Yields.settled tx.status
    · simp [Yields.processStep, hst]
    · cases hp : tx.unsignedTransaction with
      | none => simp [Yields.processStep, hst, hp]
      | some payload =>
        simp only [Yields.processStep, if_neg hst, hp]
        by_cases hsig : env.signOk = false
        · simp [hsig, hst, hp]
        · cases hsub : env.submit with
          | none =>
            rw [if_neg hsig]
            simp [hst, hp]
          | some res =>
            rw [if_neg hsig]
            simp [hst, hp]
  · intro env txs hbase
    obtain ⟨t, ht⟩ := run_nonces_prefix env txs 0 0
    have hpair := nonceSchedule_pairwise txs 0 hbase
    rw [← ht] at hpair
    exact (List.Pairwise.sublist (List.sublist_append_left _ t) hpair)

/-- Benign environment for the C7 runs: everything succeeds and the first
poll confirms. -/
def c7Env : Nat → Yields.StepEnv := fun _ =>
  { signOk := true,
    submit := some { status := "SIGNED", hash := none, explorerUrl := none },
    polls := fun _ =>
      some { status := "CONFIRMED", hash := none, explorerUrl := none } }

/-- Created step whose payload carries base nonce 10. -/
def c7TxA : Yields.Tx :=
  { id := "t1", network := "ethereum", status := "CREATED", ty := "a",
    unsignedTransaction := some { nonce := some 10 }, hash := none,
    explorerUrl := none }

/-- Created step whose payload carries base nonce 5. -/
def c7TxB : Yields.Tx :=
  { id := "t2", network := "ethereum", status := "CREATED", ty := "b",
    unsignedTransaction := some { nonce := some 5 }, hash := none,
    explorerUrl := none }

/-- Counterexample to C7 as stated: when the payload base nonces decrease
(10 then 5), both steps are signed but the nonces used are 10 then 6 — not
strictly increasing.  The offset alone does not make the used nonces
monotone. -/
theorem C7_nonce_monotonicity_counterexample :
    Ev.sign "t1" ∈ (Yields.signAndSubmitTransactions c7Env [c7TxA, c7TxB]).1 ∧
    Ev.sign "t2" ∈ (Yields.signAndSubmitTransactions c7Env [c7TxA, c7TxB]).1 ∧
    Yields.usedNonces (Yields.signAndSubmitTransactions c7Env [c7TxA, c7TxB]).1 =
      [10, 6] ∧
    ¬ (10 : Int) < 6 := by
  exact ⟨by decide, by decide, by decide, by decide⟩

/-- Witness for C7 at a concrete step and a concrete two-step run with
equal base nonces. -/
theorem C7_nonce_monotonicity_witness :
    (Yields.processStep (c7Env 0) 4 c7TxA).1 = 4 + 1 ∧
    List.Pairwise (fun a b : Int => a ≤ b) (Yields.baseNonces [c7TxA, c7TxA]) ∧
    List.Pairwise (fun a b : Int => a < b)
      (Yields.usedNonces
        (Yields.signAndSubmitTransactions c7Env [c7TxA, c7TxA]).1) :=
  ⟨C7_nonce_monotonicity.1 (c7Env 0) 4 c7TxA,
   by decide,
   C7_nonce_monotonicity.2 c7Env [c7TxA, c7TxA] (by decide)⟩
